import Mathlib

/-!
Shallow embedding of the feature-extraction core of the
Ransomware-files-ML-Detection repository (directory `src/featurizers/`),
with proofs checking the frozen claims C1..C10 against it.

Modelling conventions:
* A file is a `List Nat` of byte values (each `< 256`; Python `bytes`).
* A Python `dict` used as a feature record is a `Record`:
  an insertion-ordered association list with unique keys maintained by the
  operations (`dget`, `dset`, ...), matching CPython dict semantics.
* Python `None` is `Val.null`; a parser that can `return None` has
  codomain `Option Record` with `none` standing for Python `None`.
* Python floats are modelled as exact rationals `ℚ`; `math.log2` is an
  external library call, threaded through as a parameter `lg : ℚ → ℚ`,
  so every definition stays executable.  No claim under verification
  depends on floating-point rounding.
-/

/-- Feature value: the tagged union `Bool | Int | Float | String | Null`
threading through all feature dictionaries. -/
inductive Val where
  | bool (b : Bool)
  | int (n : Int)
  | float (q : ℚ)
  | str (s : String)
  | null
deriving DecidableEq, Repr

/-- A Python dict of feature name to value, in insertion order. -/
abbrev Record := List (String × Val)

/-- `d.get(k)`: first binding of `k` (keys are unique in every record the
model builds, mirroring Python dicts). -/
def dget : Record → String → Option Val
  | [], _ => none
  | (k1, v) :: rest, k => if k1 = k then some v else dget rest k

/-- `d[k] = v`: replace the binding in place if the key exists (Python
dicts keep the original position), else append. -/
def dset : Record → String → Val → Record
  | [], k, v => [(k, v)]
  | (k1, v1) :: rest, k, v =>
      if k1 = k then (k1, v) :: rest else (k1, v1) :: dset rest k v

/-- `d.setdefault(k, v)`. -/
def dsetdefault (d : Record) (k : String) (v : Val) : Record :=
  if (dget d k).isSome then d else d ++ [(k, v)]

/-- `d.update(d2)` (also models `{**d, **d2}`). -/
def dupdate (d d2 : Record) : Record :=
  d2.foldl (fun acc kv => dset acc kv.1 kv.2) d

/-- `if k in d: d[k] = v` — the guarded overlay used by the aggregators. -/
def dsetIfPresent (d : Record) (k : String) (v : Val) : Record :=
  if (dget d k).isSome then dset d k v else d

/-- Overlay every binding of `src` onto `d`, keeping only keys already in
`d` (`for k, v in src.items(): if k in d: d[k] = v`). -/
def doverlay (d src : Record) : Record :=
  src.foldl (fun acc kv => dsetIfPresent acc kv.1 kv.2) d

/-- The key list of a record. -/
def dkeys (d : Record) : List String := d.map Prod.fst

-- Basic dictionary lemmas

theorem dget_nil (k : String) : dget [] k = none := rfl

theorem dget_cons (k1 : String) (v : Val) (rest : Record) (k : String) :
    dget ((k1, v) :: rest) k = if k1 = k then some v else dget rest k := rfl

theorem dkeys_cons (p : String × Val) (tl : Record) :
    dkeys (p :: tl) = p.1 :: dkeys tl := rfl

theorem mem_dkeys_cons (k : String) (p : String × Val) (tl : Record) :
    k ∈ dkeys (p :: tl) ↔ k = p.1 ∨ k ∈ dkeys tl := by
  rw [dkeys_cons, List.mem_cons]

theorem dget_isSome_iff_mem (d : Record) (k : String) :
    (dget d k).isSome = true ↔ k ∈ dkeys d := by
  induction d with
  | nil => simp [dget, dkeys]
  | cons hd tl ih =>
      obtain ⟨k1, v1⟩ := hd
      rw [mem_dkeys_cons]
      by_cases h : k1 = k
      · subst h; simp [dget]
      · simp only [dget, if_neg h, ih]
        constructor
        · exact Or.inr
        · rintro (h1 | h2)
          · exact absurd h1.symm h
          · exact h2

theorem dget_eq_none_iff_not_mem (d : Record) (k : String) :
    dget d k = none ↔ k ∉ dkeys d := by
  rw [← dget_isSome_iff_mem]
  cases dget d k <;> simp

theorem dkeys_dset_of_mem (d : Record) (k : String) (v : Val)
    (h : k ∈ dkeys d) : dkeys (dset d k v) = dkeys d := by
  induction d with
  | nil => simp [dkeys] at h
  | cons hd tl ih =>
      obtain ⟨k1, v1⟩ := hd
      by_cases hk : k1 = k
      · simp [dset, hk, dkeys]
      · rw [mem_dkeys_cons] at h
        rcases h with h1 | h2
        · exact absurd h1.symm hk
        · simp only [dset, if_neg hk, dkeys_cons, ih h2]

theorem dget_dset_ne (d : Record) (k k2 : String) (v : Val) (h : k ≠ k2) :
    dget (dset d k v) k2 = dget d k2 := by
  induction d with
  | nil => simp [dset, dget, h]
  | cons hd tl ih =>
      obtain ⟨k1, v1⟩ := hd
      by_cases hk : k1 = k
      · subst hk; simp [dset, dget, h]
      · simp [dset, hk, dget, ih]

theorem dget_dset_self (d : Record) (k : String) (v : Val) :
    dget (dset d k v) k = some v := by
  induction d with
  | nil => simp [dset, dget]
  | cons hd tl ih =>
      obtain ⟨k1, v1⟩ := hd
      by_cases hk : k1 = k
      · subst hk; simp [dset, dget]
      · simp [dset, hk, dget, ih]

theorem dkeys_dsetIfPresent (d : Record) (k : String) (v : Val) :
    dkeys (dsetIfPresent d k v) = dkeys d := by
  unfold dsetIfPresent
  by_cases h : (dget d k).isSome
  · rw [if_pos h]
    exact dkeys_dset_of_mem d k v ((dget_isSome_iff_mem d k).mp h)
  · rw [if_neg h]

theorem dkeys_doverlay (d src : Record) :
    dkeys (doverlay d src) = dkeys d := by
  induction src generalizing d with
  | nil => rfl
  | cons hd tl ih =>
      unfold doverlay at *
      simp only [List.foldl_cons]
      rw [ih, dkeys_dsetIfPresent]

theorem dget_dsetIfPresent_ne (d : Record) (k k2 : String) (v : Val)
    (h : k ≠ k2) : dget (dsetIfPresent d k v) k2 = dget d k2 := by
  unfold dsetIfPresent
  by_cases hs : (dget d k).isSome
  · rw [if_pos hs]; exact dget_dset_ne d k k2 v h
  · rw [if_neg hs]

theorem dget_doverlay_not_mem (d src : Record) (k : String)
    (h : k ∉ dkeys src) : dget (doverlay d src) k = dget d k := by
  induction src generalizing d with
  | nil => rfl
  | cons hd tl ih =>
      rw [mem_dkeys_cons] at h
      push_neg at h
      unfold doverlay at *
      simp only [List.foldl_cons]
      rw [ih _ h.2, dget_dsetIfPresent_ne _ _ _ _ (fun e => h.1 e.symm)]

theorem dkeys_dsetdefault_of_mem (d : Record) (k : String) (v : Val)
    (h : k ∈ dkeys d) : dsetdefault d k v = d := by
  unfold dsetdefault
  rw [if_pos ((dget_isSome_iff_mem d k).mpr h)]

theorem foldl_dsetdefault_of_subset (L : List String) (d : Record)
    (h : ∀ n ∈ L, n ∈ dkeys d) :
    L.foldl (fun acc n => dsetdefault acc n Val.null) d = d := by
  induction L generalizing d with
  | nil => rfl
  | cons hd tl ih =>
      simp only [List.foldl_cons]
      rw [dkeys_dsetdefault_of_mem d hd Val.null (h hd (by simp))]
      exact ih d (fun n hn => h n (by simp [hn]))

theorem dkeys_dupdate_of_subset (d d2 : Record)
    (h : ∀ k ∈ dkeys d2, k ∈ dkeys d) :
    dkeys (dupdate d d2) = dkeys d := by
  induction d2 generalizing d with
  | nil => rfl
  | cons hd tl ih =>
      have hset := dkeys_dset_of_mem d hd.1 hd.2
        (h hd.1 ((mem_dkeys_cons hd.1 hd tl).mpr (Or.inl rfl)))
      unfold dupdate at *
      simp only [List.foldl_cons]
      rw [ih]
      · exact hset
      · intro k hk
        rw [hset]
        exact h k ((mem_dkeys_cons k hd tl).mpr (Or.inr hk))

theorem dget_dupdate_not_mem (d d2 : Record) (k : String)
    (h : k ∉ dkeys d2) : dget (dupdate d d2) k = dget d k := by
  induction d2 generalizing d with
  | nil => rfl
  | cons hd tl ih =>
      rw [mem_dkeys_cons] at h
      push_neg at h
      unfold dupdate at *
      simp only [List.foldl_cons]
      rw [ih _ h.2, dget_dset_ne _ _ _ _ (fun e => h.1 e.symm)]

/-! ## Feature schema (`features.yaml`, consumed as an already-parsed list)

The schema is an ordered list of sections, each a list of declared
columns `(name, type)`.  Section names are unique (they are keys of a
Python dict), item names may repeat and may be empty (Python falsy),
matching what the collectors guard against. -/

/-- One declared schema column: `{name: ..., type: ...}`.  An empty
`name`/`type` models a missing or falsy YAML field. -/
structure Item where
  name : String
  type : String
deriving DecidableEq, Repr

/-- The parsed `cfg["features"]` mapping: section name to its items. -/
abbrev Cfg := List (String × List Item)

/-- One step of the schema-collection loop shared by
`extract.collect_schema` and `features_a._collect_schema`:
skip falsy names, skip already-seen names, else append
(the `seen` set of the source is the membership in the accumulator). -/
def schemaColsStep (acc : List String) (it : Item) : List String :=
  if it.name = "" then acc
  else if it.name ∈ acc then acc
  else acc ++ [it.name]

/-- Fold `schemaColsStep` over a list of sections. -/
def collectColsFrom (sections : List (String × List Item))
    (acc : List String) : List String :=
  sections.foldl (fun a sec => sec.2.foldl schemaColsStep a) acc

/-- `collect_schema(cfg)[0]` (= `features_a._collect_schema(cfg)[0]`):
the ordered, de-duplicated list of all declared column names. -/
def collectCols (cfg : Cfg) : List String := collectColsFrom cfg []

/-- Flattened schema items in declaration order. -/
def allItems (cfg : Cfg) : List Item := (cfg.map Prod.snd).flatten

/-- `ctx.column_types.get(name, "")`: the `type` of the first item
declaring `name` (`types[name]` is only assigned at the first
occurrence, and an empty/falsy type is never recorded). -/
def typeOf (cfg : Cfg) (n : String) : String :=
  match (allItems cfg).find? (fun it => it.name == n) with
  | some it => it.type
  | none => ""

/-- The `"statistic"` section's items (`features_c.collect_schema`). -/
def statSection (cfg : Cfg) : List Item :=
  match cfg.find? (fun sec => sec.1 == "statistic") with
  | some sec => sec.2
  | none => []

/-- `AggregatorC.columns`: names of the `statistic` section, empty names
skipped, duplicates kept. -/
def statCols (cfg : Cfg) : List String :=
  (statSection cfg).filterMap
    (fun it => if it.name = "" then none else some it.name)

/-- `str(section_name).endswith("_enc")`, written on the character list
so that it evaluates by kernel reduction (Python `str.endswith`,
behaviourally identical on these names). -/
def strEndsWith (s suffix : String) : Bool :=
  List.isPrefixOf suffix.data.reverse s.data.reverse

/-- Sections whose name ends in `"_enc"` (`features_b._collect_schema`). -/
def encSections (cfg : Cfg) : List (String × List Item) :=
  cfg.filter (fun sec => strEndsWith sec.1 "_enc")

/-- `AggregatorB.family_columns[fam]`: the declared columns of the one
`_enc` section named `fam` (empty names skipped, duplicates kept);
`[]` when there is no such section. -/
def familyCols (cfg : Cfg) (fam : String) : List String :=
  match (encSections cfg).find? (fun sec => sec.1 == fam) with
  | some sec => sec.2.filterMap
      (fun it => if it.name = "" then none else some it.name)
  | none => []

/-- `AggregatorB.columns`: all `_enc` columns, first occurrence kept
(the `seen_global` set of the source is membership in the accumulator,
the same accumulation step as the full schema collection). -/
def aggBAllCols (cfg : Cfg) : List String :=
  (encSections cfg).foldl (fun acc sec => sec.2.foldl schemaColsStep acc) []

-- Membership and uniqueness facts about the collected schema

theorem mem_schemaColsStep (acc : List String) (it : Item) (x : String) :
    x ∈ schemaColsStep acc it ↔ x ∈ acc ∨ (x ≠ "" ∧ it.name = x) := by
  unfold schemaColsStep
  by_cases h0 : it.name = ""
  · rw [if_pos h0]
    constructor
    · exact Or.inl
    · rintro (h | ⟨hne, hx⟩)
      · exact h
      · exact absurd (h0 ▸ hx) hne.symm
  · rw [if_neg h0]
    by_cases h1 : it.name ∈ acc
    · rw [if_pos h1]
      constructor
      · exact Or.inl
      · rintro (h | ⟨_, hx⟩)
        · exact h
        · exact hx ▸ h1
    · rw [if_neg h1, List.mem_append, List.mem_singleton]
      constructor
      · rintro (h | h)
        · exact Or.inl h
        · exact Or.inr ⟨h ▸ h0, h.symm⟩
      · rintro (h | ⟨_, hx⟩)
        · exact Or.inl h
        · exact Or.inr hx.symm

theorem mem_foldl_schemaColsStep (items : List Item) (acc : List String)
    (x : String) :
    x ∈ items.foldl schemaColsStep acc ↔
      x ∈ acc ∨ (x ≠ "" ∧ ∃ it ∈ items, it.name = x) := by
  induction items generalizing acc with
  | nil => simp
  | cons hd tl ih =>
      simp only [List.foldl_cons, ih, mem_schemaColsStep, List.mem_cons]
      constructor
      · rintro ((h | ⟨hne, hn⟩) | ⟨hne, it, hit, hn⟩)
        · exact Or.inl h
        · exact Or.inr ⟨hne, hd, Or.inl rfl, hn⟩
        · exact Or.inr ⟨hne, it, Or.inr hit, hn⟩
      · rintro (h | ⟨hne, it, (rfl | hit), hn⟩)
        · exact Or.inl (Or.inl h)
        · exact Or.inl (Or.inr ⟨hne, hn⟩)
        · exact Or.inr ⟨hne, it, hit, hn⟩

theorem mem_collectColsFrom (sections : List (String × List Item))
    (acc : List String) (x : String) :
    x ∈ collectColsFrom sections acc ↔
      x ∈ acc ∨ (x ≠ "" ∧ ∃ sec ∈ sections, ∃ it ∈ sec.2, it.name = x) := by
  induction sections generalizing acc with
  | nil => simp [collectColsFrom]
  | cons hd tl ih =>
      unfold collectColsFrom at *
      simp only [List.foldl_cons, ih, mem_foldl_schemaColsStep, List.mem_cons]
      constructor
      · rintro ((h | ⟨hne, it, hit, hn⟩) | ⟨hne, sec, hsec, it, hit, hn⟩)
        · exact Or.inl h
        · exact Or.inr ⟨hne, hd, Or.inl rfl, it, hit, hn⟩
        · exact Or.inr ⟨hne, sec, Or.inr hsec, it, hit, hn⟩
      · rintro (h | ⟨hne, sec, (rfl | hsec), it, hit, hn⟩)
        · exact Or.inl (Or.inl h)
        · exact Or.inl (Or.inr ⟨hne, it, hit, hn⟩)
        · exact Or.inr ⟨hne, sec, hsec, it, hit, hn⟩

theorem mem_collectCols (cfg : Cfg) (x : String) :
    x ∈ collectCols cfg ↔
      x ≠ "" ∧ ∃ sec ∈ cfg, ∃ it ∈ sec.2, it.name = x := by
  rw [collectCols, mem_collectColsFrom]
  simp

theorem nodup_schemaColsStep (acc : List String) (it : Item)
    (h : acc.Nodup) : (schemaColsStep acc it).Nodup := by
  unfold schemaColsStep
  by_cases h0 : it.name = ""
  · rw [if_pos h0]; exact h
  · rw [if_neg h0]
    by_cases h1 : it.name ∈ acc
    · rw [if_pos h1]; exact h
    · rw [if_neg h1]
      rw [List.nodup_append]
      exact ⟨h, List.nodup_singleton _, by
        intro a ha hb
        rw [List.mem_singleton] at hb
        exact h1 (hb ▸ ha)⟩

theorem nodup_foldl_schemaColsStep (items : List Item) (acc : List String)
    (h : acc.Nodup) : (items.foldl schemaColsStep acc).Nodup := by
  induction items generalizing acc with
  | nil => exact h
  | cons hd tl ih =>
      simp only [List.foldl_cons]
      exact ih _ (nodup_schemaColsStep acc hd h)

theorem nodup_collectColsFrom (sections : List (String × List Item))
    (acc : List String) (h : acc.Nodup) :
    (collectColsFrom sections acc).Nodup := by
  induction sections generalizing acc with
  | nil => exact h
  | cons hd tl ih =>
      unfold collectColsFrom at *
      simp only [List.foldl_cons]
      exact ih _ (nodup_foldl_schemaColsStep hd.2 acc h)

theorem nodup_collectCols (cfg : Cfg) : (collectCols cfg).Nodup :=
  nodup_collectColsFrom cfg [] List.nodup_nil

theorem statCols_subset_collectCols (cfg : Cfg) (x : String)
    (h : x ∈ statCols cfg) : x ∈ collectCols cfg := by
  unfold statCols statSection at h
  rw [mem_collectCols]
  rcases hfind : cfg.find? (fun sec => sec.1 == "statistic") with _ | sec
  · rw [hfind] at h; simp at h
  · rw [hfind] at h
    rw [List.mem_filterMap] at h
    obtain ⟨it, hit, hx⟩ := h
    by_cases h0 : it.name = ""
    · rw [if_pos h0] at hx; cases hx
    · rw [if_neg h0] at hx
      cases hx
      exact ⟨h0, sec, List.mem_of_find?_eq_some hfind, it, hit, rfl⟩

theorem mem_aggBAllCols (cfg : Cfg) (x : String) :
    x ∈ aggBAllCols cfg ↔
      x ≠ "" ∧ ∃ sec ∈ encSections cfg, ∃ it ∈ sec.2, it.name = x := by
  rw [aggBAllCols, show ∀ (l : List (String × List Item)),
      (l.foldl (fun acc sec => sec.2.foldl schemaColsStep acc) []) =
        collectColsFrom l [] from fun _ => rfl,
    mem_collectColsFrom]
  simp

theorem aggBAllCols_subset_collectCols (cfg : Cfg) (x : String)
    (h : x ∈ aggBAllCols cfg) : x ∈ collectCols cfg := by
  rw [mem_aggBAllCols] at h
  rw [mem_collectCols]
  obtain ⟨hne, sec, hsec, it, hit, hn⟩ := h
  exact ⟨hne, sec, List.mem_of_mem_filter hsec, it, hit, hn⟩

theorem familyCols_subset_aggBAllCols (cfg : Cfg) (fam : String)
    (x : String) (h : x ∈ familyCols cfg fam) : x ∈ aggBAllCols cfg := by
  unfold familyCols at h
  rcases hfind : (encSections cfg).find? (fun sec => sec.1 == fam) with _ | sec
  · rw [hfind] at h; simp at h
  · rw [hfind] at h
    rw [List.mem_filterMap] at h
    obtain ⟨it, hit, hx⟩ := h
    by_cases h0 : it.name = ""
    · rw [if_pos h0] at hx; cases hx
    · rw [if_neg h0] at hx
      cases hx
      rw [mem_aggBAllCols]
      exact ⟨h0, sec, List.mem_of_find?_eq_some hfind, it, hit, rfl⟩

/-! ## Byte-level helpers shared by the parsers -/

/-- Little-endian 16-bit read at `off` (`struct.unpack_from("<H", ...)`);
callers only invoke it with `off + 2 ≤ length`, as the source does. -/
def u16le (b : List Nat) (off : Nat) : Nat :=
  b.getD off 0 + 256 * b.getD (off + 1) 0

/-- Little-endian 32-bit read (`struct.unpack_from("<I", ...)`). -/
def u32le (b : List Nat) (off : Nat) : Nat :=
  b.getD off 0 + 256 * b.getD (off + 1) 0 + 65536 * b.getD (off + 2) 0 +
    16777216 * b.getD (off + 3) 0

/-- Big-endian 32-bit read (`struct.unpack_from(">I", ...)`). -/
def u32be (b : List Nat) (off : Nat) : Nat :=
  16777216 * b.getD off 0 + 65536 * b.getD (off + 1) 0 +
    256 * b.getD (off + 2) 0 + b.getD (off + 3) 0

/-- Big-endian 64-bit read (`struct.unpack_from(">Q", ...)`). -/
def u64be (b : List Nat) (off : Nat) : Nat :=
  u32be b off * 4294967296 + u32be b (off + 4)

/-- `bytes.decode("ascii", errors="ignore")`: keep bytes `< 128`,
drop the rest. -/
def asciiIgnore (l : List Nat) : String :=
  String.mk (l.filterMap (fun b => if b < 128 then some (Char.ofNat b) else none))

/-- `read_bytes(path, offset, size)` of `zip_feat.py` (and `read_at` of
`mp4_feat.py`): empty result when `offset` is at or past the end of the
file, else at most `size` bytes starting at `offset`, clamped to the
file end. -/
def readBytes (file : List Nat) (off n : Nat) : List Nat :=
  if off ≥ file.length then []
  else (file.drop off).take (min n (file.length - off))

theorem readBytes_length (file : List Nat) (off n : Nat) :
    (readBytes file off n).length = min n (file.length - off) := by
  unfold readBytes
  by_cases h : off ≥ file.length
  · rw [if_pos h]
    simp [Nat.sub_eq_zero_of_le h]
  · rw [if_neg h]
    rw [List.length_take, List.length_drop]
    omega

/-! ## Byte-statistics engine (`features_c.py`) -/

/-- Read-chunk size (`CHUNK_SIZE`); chunking is invisible in the byte
model, the accumulated results below are chunk-order independent. -/
def CHUNK_SIZE : Nat := 64 * 1024

/-- Head/tail window (`SEGMENT_SIZE`). -/
def SEGMENT_SIZE : Nat := 32 * 1024

/-- The 256-bin histogram accumulated by `byte_statistics` (the source
indexes `counts[b]`, valid because file bytes are `< 256`). -/
def histogram (data : List Nat) : List Nat :=
  (List.range 256).map (fun i => data.count i)

/-- `entropy_from_counts(counts, total)`; `lg` is `math.log2`. -/
def entropy_from_counts (lg : ℚ → ℚ) (counts : List Nat) (total : Nat) :
    Option ℚ :=
  if total = 0 then none
  else some (counts.foldl
    (fun e cnt =>
      if cnt = 0 then e
      else e - ((cnt : ℚ) / (total : ℚ)) * lg ((cnt : ℚ) / (total : ℚ)))
    0)

/-- `entropy_from_bytes(data)`. -/
def entropy_from_bytes (lg : ℚ → ℚ) (data : List Nat) : Option ℚ :=
  if data.length = 0 then none
  else entropy_from_counts lg (histogram data) data.length

/-- `min_entropy(counts, total)` (`max(counts)` over the 256 bins). -/
def min_entropy (lg : ℚ → ℚ) (counts : List Nat) (total : Nat) :
    Option ℚ :=
  if total = 0 then none
  else
    let m := counts.foldr max 0
    if m = 0 then none
    else some (-(lg ((m : ℚ) / (total : ℚ))))

/-- `chi_square(counts, total)`. -/
def chi_square (counts : List Nat) (total : Nat) : Option ℚ :=
  if total = 0 then none
  else
    let expected : ℚ := (total : ℚ) / 256
    if expected = 0 then none
    else some (counts.foldl
      (fun chi2 cnt => chi2 + ((cnt : ℚ) - expected) * ((cnt : ℚ) - expected) / expected)
      0)

/-- `index_of_coincidence(counts, total)` (note `c * (c - 1) = 0` at
`c = 0` in ℕ, exactly as in ℤ). -/
def index_of_coincidence (counts : List Nat) (total : Nat) : Option ℚ :=
  if total ≤ 1 then none
  else
    let numerator : Nat := (counts.map (fun c => c * (c - 1))).sum
    let denominator : Nat := total * (total - 1)
    if denominator = 0 then none
    else some ((numerator : ℚ) / (denominator : ℚ))

/-- `byte_statistics(path)`: histogram, total, first 32 KiB, and the
32 KiB ring-buffer tail (= the last 32 KiB of the file). -/
def byte_statistics (data : List Nat) :
    List Nat × Nat × List Nat × List Nat :=
  (histogram data, data.length, data.take SEGMENT_SIZE,
    data.drop (data.length - SEGMENT_SIZE))

/-- Wrap an optional metric as a feature value. -/
def optFloat : Option ℚ → Val
  | none => Val.null
  | some q => Val.float q

/-- `{name: None for name in cols}`: dict comprehension (first
occurrence fixes the position, every write stores null). -/
def dictFromKeysNull (cols : List String) : Record :=
  cols.foldl (fun acc n => dset acc n Val.null) []

/-- `AggregatorC.collect(path)`: all declared statistic columns null,
then each of the six metrics written when its column is declared
(the `try/except` around `byte_statistics` only catches I/O errors,
which the byte model has none of). -/
def aggCCollect (lg : ℚ → ℚ) (cfg : Cfg) (data : List Nat) : Record :=
  let cols := statCols cfg
  if cols = [] then []
  else
    let stats := dictFromKeysNull cols
    let counts := histogram data
    let total := data.length
    let headBytes := data.take SEGMENT_SIZE
    let tailBytes := data.drop (data.length - SEGMENT_SIZE)
    let s1 := dsetIfPresent stats "entropy_global"
      (optFloat (entropy_from_counts lg counts total))
    let s2 := dsetIfPresent s1 "min_entropy_global"
      (optFloat (min_entropy lg counts total))
    let s3 := dsetIfPresent s2 "entropy_head"
      (optFloat (entropy_from_bytes lg headBytes))
    let s4 := dsetIfPresent s3 "entropy_tail"
      (optFloat (entropy_from_bytes lg tailBytes))
    let s5 := dsetIfPresent s4 "byte_chi2"
      (optFloat (chi_square counts total))
    dsetIfPresent s5 "ic_index"
      (optFloat (index_of_coincidence counts total))

/-! ## Aggregators A and B (`features_a.py`, `features_b.py`) -/

/-- `_COMMON_KEYS` of `features_a.py`, in source order. -/
def commonKeysList : List String :=
  ["size_bytes", "log_size", "magic_ok", "format_family", "magic_family"]

/-- The dictionary `sniff()` returns (its `fallback_max_attempts` key is
never read by the aggregation layer and is omitted); `format_family` is
always a string in the source, the other fields are arbitrary values. -/
structure SniffOut where
  format_family : String
  magic_ok : Val
  magic_family : Val
  size_bytes : Val
  log_size : Val

/-- `{k: snf.get(k) for k in _COMMON_KEYS}`. -/
def commonRec (snf : SniffOut) : Record :=
  [("size_bytes", snf.size_bytes), ("log_size", snf.log_size),
   ("magic_ok", snf.magic_ok), ("format_family", Val.str snf.format_family),
   ("magic_family", snf.magic_family)]

/-- Steps 1–3 of `AggregatorA.collect`: default the two universal
booleans on the parser record (`setdefault`), then merge the common
sniffer features with it (`{**common, **parser_feats}`). -/
def aggAMerged (snf : SniffOut) (parserFeats : Record) : Record :=
  let pf := dsetdefault (dsetdefault parserFeats "parser_ok" Val.null)
    "structure_consistent" Val.null
  dupdate (commonRec snf) pf

/-- `AggregatorA.collect(path, sniffer, parser_feats)`: the merged
dictionary restricted to exactly the declared schema columns
(undeclared keys dropped, missing columns null). -/
def aggACollect (cfg : Cfg) (snf : SniffOut) (parserFeats : Record) :
    Record :=
  let out : Record := (collectCols cfg).map (fun n => (n, Val.null))
  doverlay out (aggAMerged snf parserFeats)

/-- `AggregatorB.collect(family, enc_feats)`: null-default the family's
declared `_enc` columns and overlay matching keys of the encryption
record; `{}` when the family has no declared columns. -/
def aggBCollect (cfg : Cfg) (fam : String) (encFeats : Record) : Record :=
  let cols := familyCols cfg fam
  if cols = [] then []
  else doverlay (dictFromKeysNull cols) encFeats

/-! ## GZIP parser (`parsers_A/gzip_feat.py`) -/

/-- `DEF_RETURN` of the GZIP parser. -/
def gzipDefReturn : Record :=
  [("gzip_header_ok", Val.bool false), ("gzip_mtime_present", Val.bool false),
   ("gzip_name_present", Val.bool false), ("parser_ok", Val.bool false),
   ("structure_consistent", Val.bool false)]

/-- The result dictionary shape shared by the three return points of
`parse_gzip` (all three bind `parser_ok` and `structure_consistent`
to `header_ok`). -/
def gzipRec (header_ok mtime_present name_present : Bool) : Record :=
  [("gzip_header_ok", Val.bool header_ok),
   ("gzip_mtime_present", Val.bool mtime_present),
   ("gzip_name_present", Val.bool name_present),
   ("parser_ok", Val.bool header_ok),
   ("structure_consistent", Val.bool header_ok)]

/-- `id1 == _ID1 and id2 == _ID2 and cm == _CM_DEFLATE` on the (≤ 64 KiB)
read window. -/
def gzipHeaderOk (data : List Nat) : Bool :=
  data.getD 0 0 == 31 && data.getD 1 0 == 139 && data.getD 2 0 == 8

/-- `while pos < n and data[pos] != 0: pos += 1` — the index of the first
NUL at or after `pos`, or `n` when there is none. -/
def scanNul (data : List Nat) (pos : Nat) : Nat :=
  pos + (data.drop pos).findIdx (fun b => b == 0)

/-- `parse_gzip(path)`: reads at most 64 KiB, validates the 10-byte base
header, decodes MTIME, then walks FEXTRA/FNAME/FCOMMENT/FHCRC
bounds-checked against the window.  (The trailing FCOMMENT/FHCRC steps
only move the cursor, which is dead after them, so the model stops at
FNAME.)  Every return path ties `parser_ok` and `structure_consistent`
to `header_ok` alone. -/
def parse_gzip (file : List Nat) : Record :=
  let data := file.take 65536
  if data.length < 10 then gzipDefReturn
  else
    let header_ok := gzipHeaderOk data
    let flg := data.getD 3 0
    let mtime := u32le data 4
    let mtime_present : Bool := decide (mtime ≠ 0)
    let n := data.length
    if flg &&& 4 ≠ 0 ∧ 10 + 2 > n then gzipRec header_ok mtime_present false
    else
      let pos1 := if flg &&& 4 ≠ 0 then 10 + 2 + u16le data 10 else 10
      if flg &&& 4 ≠ 0 ∧ pos1 > n then gzipRec header_ok mtime_present false
      else
        let posScan := if flg &&& 8 ≠ 0 then scanNul data pos1 else pos1
        let name_present : Bool :=
          decide (flg &&& 8 ≠ 0 ∧ posScan < n ∧ posScan > pos1)
        gzipRec header_ok mtime_present name_present

/-! ## PNG parser (`parsers_A/png_feat.py`) -/

/-- `DEF_RETURN` of the PNG parser. -/
def pngDefReturn : Record :=
  [("png_header_ok", Val.bool false), ("png_ihdr_ok", Val.bool false),
   ("png_chunks_count", Val.int 0), ("png_idat_count", Val.int 0),
   ("png_end_iend_ok", Val.bool false), ("parser_ok", Val.bool false),
   ("structure_consistent", Val.bool false)]

/-- The 8-byte PNG signature. -/
def PNG_SIG : List Nat := [137, 80, 78, 71, 13, 10, 26, 10]

/-- State of the chunk-iteration loop of `parse_png`. -/
structure PngState where
  pos : Nat
  chunks : Nat
  idat : Nat
  iend : Bool

/-- The `while pos + 8 <= len(data) and steps < MAX_CHUNKS` loop of
`parse_png` (fuel = `MAX_CHUNKS - steps`): length-prefixed chunks,
truncation on a chunk whose declared extent exceeds the buffer,
terminate on IEND. -/
def pngLoopGo (data : List Nat) : Nat → PngState → PngState
  | 0, st => st
  | fuel + 1, st =>
      if ¬ (st.pos + 8 ≤ data.length) then st
      else
        let clen := u32be data st.pos
        let ctype := (data.drop (st.pos + 4)).take 4
        let nextPos := st.pos + 8 + clen + 4
        if nextPos > data.length then st
        else
          let st1 := { st with chunks := st.chunks + 1 }
          if ctype = [73, 68, 65, 84] then
            pngLoopGo data fuel { st1 with pos := nextPos, idat := st1.idat + 1 }
          else if ctype = [73, 69, 78, 68] then
            { st1 with iend := true, pos := nextPos }
          else pngLoopGo data fuel { st1 with pos := nextPos }

/-- `MAX_CHUNKS` of `png_feat.py`. -/
def MAX_CHUNKS : Nat := 100000

/-- `parse_png(path)`: signature check, first-chunk IHDR check, chunk
iteration.  The source's inner `return None` (lines 22–26) fires only
when the file cannot be opened, which the byte model does not
represent; the two partial-dictionary returns at lines 53–67 are
unreachable because `len(data) ≥ 20` implies the first-chunk reads
cannot fail. -/
def parse_png (file : List Nat) : Record :=
  let data := file
  let png_header_ok := PNG_SIG.isPrefixOf data
  if ¬ png_header_ok ∨ data.length < 8 + 12 then pngDefReturn
  else
    let pos0 := 8
    let ihdrLen := u32be data pos0
    let ihdrType := (data.drop (pos0 + 4)).take 4
    let ihdr_ok := ihdrType == [73, 72, 68, 82] && ihdrLen == 13 &&
      decide (pos0 + 12 + ihdrLen ≤ data.length)
    -- seen_ihdr is assigned exactly when ihdr_ok is, so the reported
    -- png_ihdr_ok = bool(ihdr_ok and seen_ihdr) = ihdr_ok
    let pos1 := pos0 + 8 + ihdrLen + 4
    let st := pngLoopGo data MAX_CHUNKS ⟨pos1, 1, 0, false⟩
    let parser_ok := png_header_ok && ihdr_ok && decide (st.chunks ≥ 2)
    let structure_consistent := parser_ok && decide (st.idat ≥ 1) && st.iend
    [("png_header_ok", Val.bool png_header_ok),
     ("png_ihdr_ok", Val.bool ihdr_ok),
     ("png_chunks_count", Val.int st.chunks),
     ("png_idat_count", Val.int st.idat),
     ("png_end_iend_ok", Val.bool st.iend),
     ("parser_ok", Val.bool parser_ok),
     ("structure_consistent", Val.bool structure_consistent)]

/-! ## MP4 / ISO-BMFF parser (`parsers_A/mp4_feat.py`) -/

/-- `max_steps` of `mp4_feat.py`. -/
def mp4MaxSteps : Nat := 1000000

/-- One yielded box: `(typ, box_start, box_size, header_size)`. -/
structure Mp4Box where
  typ : String
  start : Nat
  size : Nat
  hdr : Nat
deriving DecidableEq, Repr

/-- The `iter_boxes(fp, start, end)` generator loop
(fuel = `max_steps - steps`); `limit` is the source's local rename of
`end`.  A box whose size is below its header size or whose end exceeds
the container end breaks iteration without being yielded. -/
def iterBoxesGo (file : List Nat) (limit : Nat) : Nat → Nat → List Mp4Box
  | 0, _ => []
  | fuel + 1, pos =>
      if ¬ (pos + 8 ≤ limit) then []
      else
        let head := readBytes file pos 16
        if head.length < 8 then []
        else
          let size32 := u32be head 0
          let btype := asciiIgnore ((head.drop 4).take 4)
          if size32 = 1 ∧ head.length < 16 then []
          else if size32 = 1 ∧ u64be head 8 < 16 then []
          else
            let boxSize :=
              if size32 = 1 then u64be head 8
              else if size32 = 0 then limit - pos
              else size32
            let hdrSize := if size32 = 1 then 16 else 8
            if boxSize < hdrSize then []
            else if pos + boxSize > limit then []
            else
              Mp4Box.mk btype pos boxSize hdrSize ::
                iterBoxesGo file limit fuel (pos + boxSize)

/-- `iter_boxes(fp, start, end)` with its full fuel budget. -/
def iter_boxes (file : List Nat) (start limit : Nat) : List Mp4Box :=
  iterBoxesGo file limit mp4MaxSteps start

/-- The `for` loop of `validate_box_range`: fail if a yielded box does
not start exactly at the running cursor, or if more than `max_steps`
boxes are consumed. -/
def validateBoxGo : List Mp4Box → Nat → Nat → Bool
  | [], _, _ => true
  | b :: rest, pos, steps =>
      let steps1 := steps + 1
      if b.start ≠ pos then false
      else if steps1 > mp4MaxSteps then false
      else validateBoxGo rest (pos + b.size) steps1

/-- `validate_box_range(fp, start, end)`. -/
def validate_box_range (file : List Nat) (start limit : Nat) : Bool :=
  validateBoxGo (iter_boxes file start limit) start 0

/-- `DEF_RETURN` of the MP4 parser. -/
def mp4DefReturn : Record :=
  [("mp4_ftyp_present", Val.bool false), ("mp4_moov_present", Val.bool false),
   ("mp4_mdat_present", Val.bool false), ("mp4_brand", Val.str ""),
   ("mp4_box_tree_ok", Val.bool false), ("parser_ok", Val.bool false),
   ("structure_consistent", Val.bool false)]

/-- Accumulator of the top-level box walk in `parse_mp4`. -/
structure Mp4Acc where
  ftyp : Bool
  moov : Bool
  mdat : Bool
  brand : String
  ok : Bool

/-- `parse_mp4(path)`. -/
def parse_mp4 (file : List Nat) : Record :=
  let size := file.length
  if size < 8 then mp4DefReturn
  else
    let toplevel0 := validate_box_range file 0 size
    let acc := (iter_boxes file 0 size).foldl
      (fun a b =>
        if b.typ = "ftyp" then
          let hd := readBytes file (b.start + b.hdr) 8
          let brand1 := if hd.length ≥ 4 then asciiIgnore (hd.take 4) else a.brand
          { a with ftyp := true, brand := brand1 }
        else if b.typ = "moov" then
          let moovOk := validate_box_range file (b.start + b.hdr) (b.start + b.size)
          { a with moov := true, ok := a.ok && moovOk }
        else if b.typ = "mdat" then { a with mdat := true }
        else a)
      (Mp4Acc.mk false false false "" toplevel0)
    let parser_ok := acc.ftyp && acc.ok && (acc.moov || acc.mdat)
    let structure_consistent := acc.ftyp && acc.ok && acc.moov && acc.mdat
    [("mp4_ftyp_present", Val.bool acc.ftyp),
     ("mp4_moov_present", Val.bool acc.moov),
     ("mp4_mdat_present", Val.bool acc.mdat),
     ("mp4_brand", Val.str acc.brand),
     ("mp4_box_tree_ok", Val.bool acc.ok),
     ("parser_ok", Val.bool parser_ok),
     ("structure_consistent", Val.bool structure_consistent)]

/-! ## ZIP parser (`parsers_A/zip_feat.py`) -/

/-- `EOCD_SIG` (`'PK\x05\x06'` little-endian). -/
def EOCD_SIG : Nat := 0x06054B50

/-- `CDH_SIG` (`'PK\x01\x02'` little-endian). -/
def CDH_SIG : Nat := 0x02014B50

/-- `MAX_EOCD_SEARCH`: last 64 KiB plus the 22-byte minimal EOCD. -/
def MAX_EOCD_SEARCH : Nat := 0x10000 + 22

/-- `DEF_RETURN` of the ZIP parser. -/
def zipDefReturn : Record :=
  [("zip_central_dir_ok", Val.bool false), ("zip_cd_offset_ok", Val.bool false),
   ("zip_entry_count", Val.int 0), ("zip_has_content_types", Val.bool false),
   ("zip_comment_len", Val.int 0), ("zip_names_utf8_fraction", Val.float 0),
   ("zip_crc_present_fraction", Val.float 0), ("parser_ok", Val.bool false),
   ("structure_consistent", Val.bool false)]

/-- Does the EOCD signature `PK\x05\x06` start at index `i`? -/
def eocdSigAt (l : List Nat) (i : Nat) : Bool :=
  (l.drop i).take 4 == [80, 75, 5, 6]

/-- `tail.rfind(b'PK\x05\x06')`: index of the last occurrence, `none`
for Python's `-1`. -/
def rfindEocd (l : List Nat) : Option Nat :=
  ((List.range l.length).filter (fun i => eocdSigAt l i)).getLast?

/-- `find_eocd(path, fsize)`: reverse-scan the last
`min(MAX_EOCD_SEARCH, fsize)` bytes for the signature, then require a
full 22-byte EOCD at the found position. -/
def find_eocd (file : List Nat) (fsize : Nat) : Option (Nat × List Nat) :=
  let search := min MAX_EOCD_SEARCH fsize
  let tail := readBytes file (fsize - search) search
  match rfindEocd tail with
  | none => none
  | some idx =>
      let pos := fsize - search + idx
      let eocd := readBytes file pos 22
      if eocd.length < 22 then none else some (pos, eocd)

/-- The fields of `parse_eocd` that the parser goes on to use. -/
structure Eocd where
  entries_total : Nat
  cd_size : Nat
  cd_offset : Nat
  comment_len : Nat

/-- `parse_eocd(eocd)`: check the signature, unpack the fixed body. -/
def parse_eocd (eocd : List Nat) : Option Eocd :=
  if u32le eocd 0 ≠ EOCD_SIG then none
  else some ⟨u16le eocd 10, u32le eocd 12, u32le eocd 16, u16le eocd 20⟩

/-- One central-directory entry as yielded by `iter_central_directory`
(the `ok` component is always `True` in the source and is omitted). -/
structure CdEntry where
  name : List Nat
  gpbf : Nat
  crc : Nat

/-- The `while pos + 46 <= len(data)` loop of `iter_central_directory`.
Each iteration advances `pos` by at least 46, so the fuel
`data.length + 1` is never exhausted before a natural exit. -/
def iterCdGo (data : List Nat) (expected : Nat) :
    Nat → Nat → Nat → List CdEntry
  | 0, _, _ => []
  | fuel + 1, pos, count =>
      if ¬ (pos + 46 ≤ data.length) then []
      else if u32le data pos ≠ CDH_SIG then []
      else
        let gpbf := u16le data (pos + 8)
        let crc32 := u32le data (pos + 16)
        let fname_len := u16le data (pos + 28)
        let extra_len := u16le data (pos + 30)
        let comment_len := u16le data (pos + 32)
        if pos + 46 + fname_len > data.length then []
        else
          let name := (data.drop (pos + 46)).take fname_len
          let entry : CdEntry := ⟨name, gpbf, crc32⟩
          let count1 := count + 1
          if expected ≠ 0 ∧ count1 ≥ expected then [entry]
          else entry ::
            iterCdGo data expected fuel
              (pos + 46 + fname_len + extra_len + comment_len) count1

/-- `iter_central_directory(path, cd_offset, cd_size, expected_entries)`. -/
def iter_central_directory (file : List Nat)
    (cd_offset cd_size expected : Nat) : List CdEntry :=
  let data := readBytes file cd_offset cd_size
  iterCdGo data expected (data.length + 1) 0 0

/-- ASCII codes of a (pure-ASCII) Python string literal. -/
def strBytes (s : String) : List Nat := s.toList.map Char.toNat

/-- `round(x, 6)`: Python's float rounding modelled as exact rational
rounding; no claim under verification depends on the rounded digits. -/
def round6 (q : ℚ) : ℚ := (round (q * 1000000) : ℤ) / 1000000

/-- `parse_zip(path)`.  `none` is the source's `return None` ("не ZIP
или сильно повреждён").  The only statement inside the `try` that can
raise on pure byte input is `struct.unpack_from('<I', read_bytes(path,
cd_offset, 4), 0)` when fewer than 4 bytes come back; the outer
`except` then returns `DEF_RETURN.copy()` — the branch right after
`parse_eocd` models that. -/
def parse_zip (file : List Nat) : Option Record :=
  let fsize := file.length
  match find_eocd file fsize with
  | none => none
  | some (_pos, eocd) =>
      match parse_eocd eocd with
      | none => none
      | some e =>
          if e.cd_offset + e.cd_size ≤ fsize ∧
              (readBytes file e.cd_offset 4).length < 4 then
            some zipDefReturn
          else
            let zip_cd_offset_ok := decide (e.cd_offset + e.cd_size ≤ fsize) &&
              (u32le (readBytes file e.cd_offset 4) 0 == CDH_SIG)
            let entries :=
              iter_central_directory file e.cd_offset e.cd_size e.entries_total
            let entry_count := entries.length
            let utf8_count := (entries.filter (fun en => en.gpbf &&& 2048 ≠ 0)).length
            let crc_present_count := (entries.filter (fun en => en.crc ≠ 0)).length
            let has_content_types :=
              entries.any (fun en => en.name == strBytes "[Content_Types].xml")
            let zip_central_dir_ok :=
              (e.entries_total == 0 && entry_count == 0) ||
                entry_count == e.entries_total
            let utf8_fraction : ℚ :=
              if entry_count > 0 then (utf8_count : ℚ) / (entry_count : ℚ) else 0
            let crc_fraction : ℚ :=
              if entry_count > 0 then (crc_present_count : ℚ) / (entry_count : ℚ) else 0
            let parser_ok := zip_central_dir_ok && zip_cd_offset_ok &&
              decide (entry_count ≥ 1)
            let structure_consistent := parser_ok && decide (crc_fraction ≥ 0.65)
            some
              [("zip_central_dir_ok", Val.bool zip_central_dir_ok),
               ("zip_cd_offset_ok", Val.bool zip_cd_offset_ok),
               ("zip_entry_count", Val.int entry_count),
               ("zip_has_content_types", Val.bool has_content_types),
               ("zip_comment_len", Val.int e.comment_len),
               ("zip_names_utf8_fraction", Val.float (round6 utf8_fraction)),
               ("zip_crc_present_fraction", Val.float (round6 crc_fraction)),
               ("parser_ok", Val.bool parser_ok),
               ("structure_consistent", Val.bool structure_consistent)]

/-! ## OLE2 / CFB parser (`parsers_A/ole2_feat.py`) -/

/-- `HEADER_SIZE`. -/
def OLE_HEADER_SIZE : Nat := 512

/-- `FREESECT`. -/
def FREESECT : Nat := 0xFFFFFFFF

/-- `ENDOFCHAIN`. -/
def ENDOFCHAIN : Nat := 0xFFFFFFFE

/-- `DIR_ENTRY_SIZE`. -/
def DIR_ENTRY_SIZE : Nat := 128

/-- `MAX_SECTORS_READ`. -/
def MAX_SECTORS_READ : Nat := 8192

/-- `DEF_RETURN` of the OLE2 parser. -/
def ole2DefReturn : Record :=
  [("ole_dir_ok", Val.bool false), ("ole_stream_count", Val.int 0),
   ("ole_fat_ok", Val.bool false), ("ole_mini_fat_ok", Val.bool false),
   ("ole_root_entry_present", Val.bool false),
   ("ole_summaryinfo_present", Val.bool false),
   ("ole_expected_streams_present", Val.bool false),
   ("parser_ok", Val.bool false), ("structure_consistent", Val.bool false)]

/-- `sector_offset(sector_size, sector_index)`. -/
def sector_offset (sectorSize sectorIndex : Nat) : Nat :=
  OLE_HEADER_SIZE + sectorIndex * sectorSize

/-- `read_sector(data, sector_size, sector_index)`: empty when the
sector extends past the end of the data. -/
def read_sector (data : List Nat) (sectorSize sectorIndex : Nat) : List Nat :=
  let off := sector_offset sectorSize sectorIndex
  if off + sectorSize > data.length then []
  else (data.drop off).take sectorSize

/-- The header fields `parse_header` extracts. -/
structure OleHeader where
  sector_size : Nat
  mini_sector_size : Nat
  num_dir_sectors : Nat
  num_fat_sectors : Nat
  first_dir_sector : Nat
  mini_stream_cutoff : Nat
  first_minifat : Nat
  num_minifat_sectors : Nat
  first_difat : Nat
  num_difat_sectors : Nat
  difat0 : List Nat

/-- The 8-byte CFB signature. -/
def OLE_SIG : List Nat := [208, 207, 17, 224, 161, 177, 26, 225]

/-- `parse_header(data)`: `None` for data shorter than 512 bytes or a
wrong signature, else the unpacked locator fields and the 109-entry
inline DIFAT. -/
def ole2Header (data : List Nat) : Option OleHeader :=
  if data.length < OLE_HEADER_SIZE then none
  else if ¬ (data.take 8 = OLE_SIG) then none
  else
    some
      { sector_size := 2 ^ u16le data 0x1E
        mini_sector_size := 2 ^ u16le data 0x20
        num_dir_sectors := u32le data 0x28
        num_fat_sectors := u32le data 0x2C
        first_dir_sector := u32le data 0x30
        mini_stream_cutoff := u32le data 0x38
        first_minifat := u32le data 0x3C
        num_minifat_sectors := u32le data 0x40
        first_difat := u32le data 0x44
        num_difat_sectors := u32le data 0x48
        difat0 := (List.range 109).map (fun i => u32le data (0x4C + 4 * i)) }

/-- Result of the DIFAT-chain walk inside `build_fat`: the collected
FAT-sector indices, the `visited` set (as a list, most recent first),
and whether `struct.unpack_from` raised (negative field count, i.e.
`sector_size < 4`). -/
structure DifatOut where
  fat_sector_indices : List Nat
  visited : List Nat
  raised : Bool

/-- The `while difat_sect not in (FREESECT, ENDOFCHAIN) and
difat_remaining > 0 and len(visited) < MAX_SECTORS_READ` loop of
`build_fat`; recursion is on `difat_remaining`, which the source
decrements every iteration. -/
def difatGo (data : List Nat) (sectorSize : Nat) :
    Nat → Nat → List Nat → List Nat → DifatOut
  | 0, _, visited, acc => ⟨acc, visited, false⟩
  | remaining + 1, difatSect, visited, acc =>
      if difatSect = FREESECT ∨ difatSect = ENDOFCHAIN then ⟨acc, visited, false⟩
      else if ¬ (visited.length < MAX_SECTORS_READ) then ⟨acc, visited, false⟩
      else if difatSect ∈ visited then ⟨acc, visited, false⟩
      else
        let visited1 := difatSect :: visited
        let buf := read_sector data sectorSize difatSect
        if buf.length ≠ sectorSize then ⟨acc, visited1, false⟩
        else if sectorSize / 4 = 0 then ⟨acc, visited1, true⟩
        else
          let count := sectorSize / 4 - 1
          let entries := (List.range count).map (fun i => u32le buf (4 * i))
          let acc1 := acc ++ entries.filter (fun s => s ≠ FREESECT)
          let nxt := u32le buf (sectorSize - 4)
          difatGo data sectorSize remaining nxt visited1 acc1

/-- The DIFAT walk as `build_fat` starts it: header DIFAT entries
(`FREESECT` skipped, no early stop) already collected, empty visited
set, chain start and length from the header. -/
def difatWalk (data : List Nat) (H : OleHeader) : DifatOut :=
  difatGo data H.sector_size H.num_difat_sectors H.first_difat []
    (H.difat0.filter (fun s => s ≠ FREESECT))

/-- Step 3 of `build_fat`: read each referenced FAT sector and
concatenate its 32-bit entries; a short sector stops the loop with
`fat_ok = False`. -/
def fatReadGo (data : List Nat) (sectorSize : Nat) :
    List Nat → List Nat → List Nat × Bool
  | [], fat => (fat, true)
  | sidx :: rest, fat =>
      let sbuf := read_sector data sectorSize sidx
      if sbuf.length ≠ sectorSize then (fat, false)
      else
        let cnt := sectorSize / 4
        fatReadGo data sectorSize rest
          (fat ++ (List.range cnt).map (fun i => u32le sbuf (4 * i)))

/-- Result of `build_fat`: the FAT, its validity flag, and whether the
DIFAT walk raised (propagating to the parser's outer `except`). -/
structure FatOut where
  fat : List Nat
  fat_ok : Bool
  raised : Bool

/-- `build_fat(data, H)`. -/
def build_fat (data : List Nat) (H : OleHeader) : FatOut :=
  let d := difatWalk data H
  if d.raised then ⟨[], false, true⟩
  else
    let r := fatReadGo data H.sector_size d.fat_sector_indices []
    ⟨r.1, r.2 && decide (r.1 ≠ []), false⟩

/-- The `while cur not in (FREESECT, ENDOFCHAIN) and hops <
MAX_SECTORS_READ` loop of `follow_chain` (fuel =
`MAX_SECTORS_READ - hops`); returns the concatenated stream and the
`seen` set as a list. -/
def followGo (data : List Nat) (sectorSize : Nat) (fat : List Nat) :
    Nat → Nat → List Nat → List Nat → List Nat × List Nat
  | 0, _, seen, out => (out, seen)
  | fuel + 1, cur, seen, out =>
      if cur = FREESECT ∨ cur = ENDOFCHAIN then (out, seen)
      else if cur ∈ seen ∨ fat.length ≤ cur then (out, seen)
      else
        let seen1 := cur :: seen
        let sec := read_sector data sectorSize cur
        if sec.length ≠ sectorSize then (out, seen1)
        else followGo data sectorSize fat fuel (fat.getD cur 0) seen1 (out ++ sec)

/-- `follow_chain(data, sector_size, fat, start)`. -/
def follow_chain (data : List Nat) (sectorSize : Nat) (fat : List Nat)
    (start : Nat) : List Nat :=
  if start = FREESECT ∨ start = ENDOFCHAIN then []
  else (followGo data sectorSize fat MAX_SECTORS_READ start [] []).1

/-- The sequence of sectors `follow_chain` actually reads (its `seen`
set). -/
def followChainTrace (data : List Nat) (sectorSize : Nat) (fat : List Nat)
    (start : Nat) : List Nat :=
  if start = FREESECT ∨ start = ENDOFCHAIN then []
  else (followGo data sectorSize fat MAX_SECTORS_READ start [] []).2

/-- `bytes.decode("utf-16le", errors="ignore")`, stage 1: pair bytes
into 16-bit units, dropping a trailing odd byte. -/
def utf16leUnits : List Nat → List Nat
  | b0 :: b1 :: rest => (b0 + 256 * b1) :: utf16leUnits rest
  | _ => []

/-- `bytes.decode("utf-16le", errors="ignore")`, stage 2: combine
surrogate pairs, drop lone surrogates, yielding code points. -/
def utf16Decode : List Nat → List Nat
  | [] => []
  | u :: rest =>
      if u < 0xD800 ∨ 0xE000 ≤ u then u :: utf16Decode rest
      else if u < 0xDC00 then
        match rest with
        | u2 :: rest2 =>
            if 0xDC00 ≤ u2 ∧ u2 < 0xE000 then
              (0x10000 + (u - 0xD800) * 0x400 + (u2 - 0xDC00)) :: utf16Decode rest2
            else utf16Decode (u2 :: rest2)
        | [] => []
      else utf16Decode rest
termination_by l => l.length
decreasing_by all_goals simp_arith [List.length_cons]

/-- Code points of a (BMP, non-surrogate) Python string literal. -/
def strCodes (s : String) : List Nat := s.toList.map Char.toNat

/-- `name.rstrip("\x00")` on code points. -/
def rstripNul (l : List Nat) : List Nat :=
  (l.reverse.dropWhile (fun c => c = 0)).reverse

/-- The result tuple of `parse_directory_stream`. -/
structure DirOut where
  dir_ok : Bool
  stream_count : Nat
  root_present : Bool
  summaryinfo_present : Bool
  expected_present : Bool

/-- The `for i in range(n_entries)` loop of `parse_directory_stream`:
classify each 128-byte entry, early-return `dir_ok = False` on an
unknown object type, accumulate stream/root/name flags. -/
def dirGo (dirBytes : List Nat) : Nat → Nat → DirOut → DirOut
  | 0, _, st => { st with dir_ok := true }
  | k + 1, i, st =>
      let entry := (dirBytes.drop (i * DIR_ENTRY_SIZE)).take DIR_ENTRY_SIZE
      if entry.length ≠ DIR_ENTRY_SIZE then { st with dir_ok := true }
      else
        let name_raw := entry.take 128
        let name_len0 := u16le entry 0x40
        let name_len1 := if name_len0 > 128 then 128 else name_len0
        let name_len := if name_len1 % 2 = 1 then name_len1 - 1 else name_len1
        let obj_type := entry.getD 0x42 0
        if ¬ (obj_type = 0 ∨ obj_type = 1 ∨ obj_type = 2 ∨ obj_type = 5) then
          { st with dir_ok := false }
        else
          let st1 :=
            { st with
              root_present := st.root_present || obj_type == 5
              stream_count := st.stream_count + (if obj_type = 2 then 1 else 0) }
          let name :=
            if name_len > 0 then
              rstripNul (utf16Decode (utf16leUnits (name_raw.take name_len)))
            else []
          let st2 :=
            { st1 with
              summaryinfo_present := st1.summaryinfo_present ||
                name == 5 :: strCodes "SummaryInformation"
              expected_present := st1.expected_present ||
                name == strCodes "WordDocument" ||
                name == strCodes "Workbook" ||
                name == strCodes "PowerPoint Document" }
          dirGo dirBytes k (i + 1) st2

/-- `parse_directory_stream(dir_bytes)`. -/
def parse_directory_stream (dirBytes : List Nat) : DirOut :=
  if dirBytes.length < DIR_ENTRY_SIZE then ⟨false, 0, false, false, false⟩
  else dirGo dirBytes (dirBytes.length / DIR_ENTRY_SIZE) 0
    ⟨false, 0, false, false, false⟩

/-- `mini_fat_ok(data, H, fat)` (its `fat` argument is unused in the
source). -/
def ole2MiniFatOk (data : List Nat) (H : OleHeader) : Bool :=
  if H.num_minifat_sectors = 0 ∨ H.first_minifat = FREESECT ∨
      H.first_minifat = ENDOFCHAIN then true
  else
    let buf := read_sector data H.sector_size H.first_minifat
    if buf.length ≠ H.sector_size ∨ buf.length % 4 ≠ 0 then false else true

/-- `parse_ole2(path)`.  `none` is the source's `return None`
("не OLE2/CFB").  The only raising statement on pure byte input is the
negative-count `struct.unpack_from` inside the DIFAT walk, surfaced
here through `build_fat`'s `raised` flag and answered with
`DEF_RETURN.copy()` exactly as the outer `except` does. -/
def parse_ole2 (file : List Nat) : Option Record :=
  match ole2Header file with
  | none => none
  | some H =>
      let f := build_fat file H
      if f.raised then some ole2DefReturn
      else
        let dir_stream := follow_chain file H.sector_size f.fat H.first_dir_sector
        let dOut := parse_directory_stream dir_stream
        let minifat := ole2MiniFatOk file H
        let parser_ok := dOut.dir_ok && dOut.root_present && f.fat_ok &&
          decide (dOut.stream_count ≥ 1)
        let structure_consistent := parser_ok &&
          (dOut.expected_present || dOut.summaryinfo_present) &&
          (minifat || decide (dOut.stream_count ≤ 1))
        some
          [("ole_dir_ok", Val.bool dOut.dir_ok),
           ("ole_stream_count", Val.int dOut.stream_count),
           ("ole_fat_ok", Val.bool f.fat_ok),
           ("ole_mini_fat_ok", Val.bool minifat),
           ("ole_root_entry_present", Val.bool dOut.root_present),
           ("ole_summaryinfo_present", Val.bool dOut.summaryinfo_present),
           ("ole_expected_streams_present", Val.bool dOut.expected_present),
           ("parser_ok", Val.bool parser_ok),
           ("structure_consistent", Val.bool structure_consistent)]

/-! ## Extraction context (`extract.py`) -/

/-- `str(val)` as used by `normalize_value` (Python float formatting is
abstracted; no claim under verification touches it). -/
def pyStr : Val → String
  | Val.bool b => if b then "True" else "False"
  | Val.int n => toString n
  | Val.float q => toString q
  | Val.str s => s
  | Val.null => "None"

/-- `int(val)`: `none` models a raised `ValueError`/`TypeError`
(string parsing approximated by integer literals). -/
def pyInt : Val → Option Int
  | Val.bool b => some (if b then 1 else 0)
  | Val.int n => some n
  | Val.float q => some (if q ≥ 0 then q.floor else q.ceil)
  | Val.str s => s.toInt?
  | Val.null => none

/-- `float(val)`: as `pyInt`, failures give `none`. -/
def pyFloat : Val → Option ℚ
  | Val.bool b => some (if b then 1 else 0)
  | Val.int n => some ((n : ℚ))
  | Val.float q => some q
  | Val.str s => (s.toInt?).map (fun n => ((n : ℚ)))
  | Val.null => none

/-- `normalize_value(val, typ)`: `None` passes through, `bool` returns
the value unchanged (both branches of the source do), `int`/`float`/
`string` convert, and a conversion failure returns the raw value. -/
def normalize_value (v : Val) (t : String) : Val :=
  match v with
  | Val.null => Val.null
  | _ =>
      let tl := t.toLower
      if tl = "bool" then v
      else if tl = "int" then
        match pyInt v with
        | some n => Val.int n
        | none => v
      else if tl = "float" then
        match pyFloat v with
        | some q => Val.float q
        | none => v
      else if tl = "string" then Val.str (pyStr v)
      else v

/-- A parser registry (`get_parser` / `get_parser_enc`): family name to
parser, `none` when the registry has no parser.  A parser maps file
bytes to `some record` or `none` (Python `None`); a parser that raised
is indistinguishable from one returning `None` at the call sites
below, since both are answered with the same substitute. -/
abbrev Registry := String → Option (List Nat → Option Record)

/-- Step 2 of `extract_feats`: run the structural parser; no parser, a
`None` return, or a raise all yield
`{"parser_ok": None, "structure_consistent": None}`. -/
def parserFeatsOf (regA : Registry) (fam : String) (data : List Nat) :
    Record :=
  match regA fam with
  | none => [("parser_ok", Val.null), ("structure_consistent", Val.null)]
  | some p =>
      match p data with
      | some d => d
      | none => [("parser_ok", Val.null), ("structure_consistent", Val.null)]

/-- `agg_feats.get("parser_ok") is True`. -/
def encCond (aggA : Record) : Bool :=
  decide (dget aggA "parser_ok" = some (Val.bool true))

/-- Step 3 of `extract_feats`: the encryption parser's record, `{}`
unless the gate condition held and a parser exists (a `None` return or
a raise also gives `{}`). -/
def encFeatsOf (regB : Registry) (encFam : String) (data : List Nat)
    (cond : Bool) : Record :=
  if cond then
    match regB encFam with
    | none => []
    | some p =>
        match p data with
        | some d => d
        | none => []
  else []

/-- Does `extract_feats` invoke an encryption parser for this input? -/
def encParserRuns (cfg : Cfg) (snf : SniffOut) (regA regB : Registry)
    (data : List Nat) : Bool :=
  encCond (aggACollect cfg snf (parserFeatsOf regA snf.format_family data)) &&
    (regB (snf.format_family ++ "_enc")).isSome

/-- `agg_feats` after step 2 of `extract_feats`. -/
def extractAggA (cfg : Cfg) (snf : SniffOut) (regA : Registry)
    (data : List Nat) : Record :=
  aggACollect cfg snf (parserFeatsOf regA snf.format_family data)

/-- The `agg_enc_feats` dictionary of step 3. -/
def extractAggEnc (cfg : Cfg) (snf : SniffOut) (regA regB : Registry)
    (data : List Nat) : Record :=
  let encFam := snf.format_family ++ "_enc"
  aggBCollect cfg encFam
    (encFeatsOf regB encFam data (encCond (extractAggA cfg snf regA data)))

/-- `agg_feats` after `if agg_enc_feats: agg_feats.update(agg_enc_feats)`. -/
def extractR1 (cfg : Cfg) (snf : SniffOut) (regA regB : Registry)
    (data : List Nat) : Record :=
  let aggA := extractAggA cfg snf regA data
  let aggEnc := extractAggEnc cfg snf regA regB data
  if aggEnc = [] then aggA else dupdate aggA aggEnc

/-- `agg_feats` after the `setdefault` loop over `agg_b.columns`. -/
def extractR2 (cfg : Cfg) (snf : SniffOut) (regA regB : Registry)
    (data : List Nat) : Record :=
  (aggBAllCols cfg).foldl (fun acc n => dsetdefault acc n Val.null)
    (extractR1 cfg snf regA regB data)

/-- `agg_feats` after `if stat_feats: agg_feats.update(stat_feats)`. -/
def extractR3 (cfg : Cfg) (snf : SniffOut) (regA regB : Registry)
    (lg : ℚ → ℚ) (data : List Nat) : Record :=
  let stat := aggCCollect lg cfg data
  let r2 := extractR2 cfg snf regA regB data
  if stat = [] then r2 else dupdate r2 stat

/-- Steps 1–4 of `extract_feats`: the merged feature dictionary
(`agg_feats`) right before the schema reconciliation. -/
def mergedFeats (cfg : Cfg) (snf : SniffOut) (regA regB : Registry)
    (lg : ℚ → ℚ) (data : List Nat) : Record :=
  (statCols cfg).foldl (fun acc n => dsetdefault acc n Val.null)
    (extractR3 cfg snf regA regB lg data)

/-- Step 6 of `extract_feats`: the returned row — every declared column
in order, type-normalized. -/
def finalRecord (cfg : Cfg) (snf : SniffOut) (regA regB : Registry)
    (lg : ℚ → ℚ) (data : List Nat) : Record :=
  let r := mergedFeats cfg snf regA regB lg data
  (collectCols cfg).map
    (fun n => (n, normalize_value ((dget r n).getD Val.null) (typeOf cfg n)))

/-- `extract_feats(file_path, cfg)`: the schema reconciliation of step 5
raises `RuntimeError` (`Except.error`, carrying the missing and extra
column lists) when the merged keys differ from the schema, else the
normalized row. -/
def extract_feats (cfg : Cfg) (snf : SniffOut) (regA regB : Registry)
    (lg : ℚ → ℚ) (data : List Nat) :
    Except (List String × List String) Record :=
  let r := mergedFeats cfg snf regA regB lg data
  let missing := (collectCols cfg).filter (fun c => !(decide (c ∈ dkeys r)))
  let extra := (dkeys r).filter (fun k => !(decide (k ∈ collectCols cfg)))
  if missing ≠ [] ∨ extra ≠ [] then Except.error (missing, extra)
  else Except.ok (finalRecord cfg snf regA regB lg data)

/-! ## Further dictionary lemmas for the pipeline proofs -/

theorem mem_dkeys_dset (d : Record) (k k2 : String) (v : Val) :
    k2 ∈ dkeys (dset d k v) ↔ k2 ∈ dkeys d ∨ k2 = k := by
  induction d with
  | nil => simp [dset, dkeys]
  | cons hd tl ih =>
      obtain ⟨k1, v1⟩ := hd
      by_cases hk : k1 = k
      · subst hk
        rw [show dset ((k1, v1) :: tl) k1 v = (k1, v) :: tl by
            rw [dset, if_pos rfl],
          mem_dkeys_cons, mem_dkeys_cons]
        tauto
      · rw [show dset ((k1, v1) :: tl) k v = (k1, v1) :: dset tl k v by
            rw [dset, if_neg hk],
          mem_dkeys_cons, mem_dkeys_cons, ih]
        tauto

theorem mem_dkeys_dupdate (d d2 : Record) (k : String) :
    k ∈ dkeys (dupdate d d2) ↔ k ∈ dkeys d ∨ k ∈ dkeys d2 := by
  induction d2 generalizing d with
  | nil => simp [dupdate, dkeys]
  | cons hd tl ih =>
      unfold dupdate at *
      simp only [List.foldl_cons, ih, mem_dkeys_dset, mem_dkeys_cons]
      tauto

theorem mem_dkeys_dsetdefault (d : Record) (k k2 : String) (v : Val) :
    k2 ∈ dkeys (dsetdefault d k v) ↔ k2 ∈ dkeys d ∨ k2 = k := by
  unfold dsetdefault
  by_cases h : (dget d k).isSome
  · rw [if_pos h]
    have := (dget_isSome_iff_mem d k).mp h
    constructor
    · exact Or.inl
    · rintro (hm | rfl)
      · exact hm
      · exact this
  · rw [if_neg h]
    unfold dkeys
    rw [List.map_append, List.mem_append]
    simp [dkeys]

theorem mem_dkeys_foldl_dsetdefault (L : List String) (d : Record)
    (k : String) :
    k ∈ dkeys (L.foldl (fun acc n => dsetdefault acc n Val.null) d) ↔
      k ∈ dkeys d ∨ k ∈ L := by
  induction L generalizing d with
  | nil => simp
  | cons hd tl ih =>
      simp only [List.foldl_cons, ih, mem_dkeys_dsetdefault, List.mem_cons]
      tauto

theorem dget_map_fn (cols : List String) (f : String → Val) (c : String) :
    dget (cols.map (fun n => (n, f n))) c =
      if c ∈ cols then some (f c) else none := by
  induction cols with
  | nil => simp [dget]
  | cons hd tl ih =>
      simp only [List.map_cons, dget_cons, ih, List.mem_cons]
      by_cases h : hd = c
      · subst h; simp
      · rw [if_neg h]
        by_cases h2 : c ∈ tl
        · rw [if_pos h2, if_pos (Or.inr h2)]
        · rw [if_neg h2, if_neg (by push_neg; exact ⟨fun e => h e.symm, h2⟩)]

theorem mem_dkeys_dictFromKeysNull (cols : List String) (k : String) :
    k ∈ dkeys (dictFromKeysNull cols) ↔ k ∈ cols := by
  suffices h : ∀ d : Record,
      k ∈ dkeys (cols.foldl (fun acc n => dset acc n Val.null) d) ↔
        k ∈ dkeys d ∨ k ∈ cols by
    have := h []
    simpa [dictFromKeysNull, dkeys] using this
  induction cols with
  | nil => simp
  | cons hd tl ih =>
      intro d
      simp only [List.foldl_cons, ih, mem_dkeys_dset, List.mem_cons]
      tauto

theorem values_null_dictFromKeysNull (cols : List String) :
    ∀ p ∈ dictFromKeysNull cols, p.2 = Val.null := by
  suffices h : ∀ d : Record, (∀ p ∈ d, p.2 = Val.null) →
      ∀ p ∈ cols.foldl (fun acc n => dset acc n Val.null) d, p.2 = Val.null by
    exact h [] (by simp)
  intro d hd
  induction cols generalizing d with
  | nil => exact hd
  | cons hdc tl ih =>
      simp only [List.foldl_cons]
      refine ih _ ?_
      intro p hp
      clear ih
      induction d with
      | nil =>
          simp [dset] at hp
          rw [hp]
      | cons q rest ihd =>
          obtain ⟨q1, q2⟩ := q
          by_cases hq : q1 = hdc
          · rw [dset, if_pos hq] at hp
            rcases List.mem_cons.mp hp with rfl | hmem
            · rfl
            · exact hd p (List.mem_cons_of_mem _ hmem)
          · rw [dset, if_neg hq] at hp
            rcases List.mem_cons.mp hp with rfl | hmem
            · exact hd (q1, q2) (List.mem_cons_self _ _)
            · exact ihd (fun r hr => hd r (List.mem_cons_of_mem _ hr)) hmem

theorem dget_dupdate_mem_null (d d2 : Record) (k : String)
    (hnull : ∀ p ∈ d2, p.2 = Val.null) (hmem : k ∈ dkeys d2) :
    dget (dupdate d d2) k = some Val.null := by
  induction d2 generalizing d with
  | nil => simp [dkeys] at hmem
  | cons hd tl ih =>
      unfold dupdate at *
      simp only [List.foldl_cons]
      by_cases htl : k ∈ dkeys tl
      · exact ih _ (fun p hp => hnull p (List.mem_cons_of_mem _ hp)) htl
      · rw [mem_dkeys_cons] at hmem
        rcases hmem with rfl | hmem2
        · rw [show (tl.foldl (fun acc kv => dset acc kv.1 kv.2)
              (dset d hd.1 hd.2)) = dupdate (dset d hd.1 hd.2) tl from rfl,
            dget_dupdate_not_mem _ _ _ htl, dget_dset_self,
            hnull hd (List.mem_cons_self _ _)]
        · exact absurd hmem2 htl

theorem dget_dsetIfPresent_self_of_mem (d : Record) (k : String) (v : Val)
    (h : k ∈ dkeys d) : dget (dsetIfPresent d k v) k = some v := by
  unfold dsetIfPresent
  rw [if_pos ((dget_isSome_iff_mem d k).mpr h), dget_dset_self]

theorem nodup_dkeys_dset (d : Record) (k : String) (v : Val)
    (h : (dkeys d).Nodup) : (dkeys (dset d k v)).Nodup := by
  induction d with
  | nil => simp [dset, dkeys]
  | cons hd tl ih =>
      obtain ⟨k1, v1⟩ := hd
      rw [dkeys_cons, List.nodup_cons] at h
      by_cases hk : k1 = k
      · rw [dset, if_pos hk, dkeys_cons, List.nodup_cons]
        exact h
      · rw [dset, if_neg hk, dkeys_cons, List.nodup_cons]
        refine ⟨?_, ih h.2⟩
        intro hmem
        rcases (mem_dkeys_dset tl k k1 v).mp hmem with hm | he
        · exact h.1 hm
        · exact hk he

theorem dget_doverlay_of_mem (d src : Record) (k : String) (v : Val)
    (hnodup : (dkeys src).Nodup) (hmem : k ∈ dkeys d)
    (hget : dget src k = some v) : dget (doverlay d src) k = some v := by
  induction src generalizing d with
  | nil => simp [dget] at hget
  | cons hd tl ih =>
      obtain ⟨k1, v1⟩ := hd
      rw [dkeys_cons, List.nodup_cons] at hnodup
      unfold doverlay at *
      simp only [List.foldl_cons]
      by_cases hk : k1 = k
      · subst hk
        rw [dget_cons, if_pos rfl] at hget
        cases hget
        rw [show (tl.foldl (fun acc kv => dsetIfPresent acc kv.1 kv.2)
            (dsetIfPresent d k1 v)) = doverlay (dsetIfPresent d k1 v) tl
            from rfl,
          dget_doverlay_not_mem _ _ _ hnodup.1,
          dget_dsetIfPresent_self_of_mem _ _ _ hmem]
      · rw [dget_cons, if_neg hk] at hget
        refine ih _ hnodup.2 ?_ hget
        rw [dkeys_dsetIfPresent]
        exact hmem

/-! ## Key-set facts along the pipeline -/

theorem dkeys_map_pair (l : List String) (f : String → Val) :
    dkeys (l.map (fun n => (n, f n))) = l := by
  induction l with
  | nil => rfl
  | cons hd tl ih =>
      rw [List.map_cons, dkeys_cons, ih]

theorem dkeys_aggACollect (cfg : Cfg) (snf : SniffOut) (pf : Record) :
    dkeys (aggACollect cfg snf pf) = collectCols cfg := by
  unfold aggACollect
  rw [dkeys_doverlay]
  exact dkeys_map_pair _ _

theorem dkeys_aggBCollect_subset (cfg : Cfg) (fam : String) (enc : Record)
    (k : String) (h : k ∈ dkeys (aggBCollect cfg fam enc)) :
    k ∈ familyCols cfg fam := by
  simp only [aggBCollect] at h
  split at h
  · simp [dkeys] at h
  · rw [dkeys_doverlay] at h
    exact (mem_dkeys_dictFromKeysNull _ _).mp h

theorem dkeys_aggCCollect_subset (lg : ℚ → ℚ) (cfg : Cfg) (data : List Nat)
    (k : String) (h : k ∈ dkeys (aggCCollect lg cfg data)) :
    k ∈ statCols cfg := by
  simp only [aggCCollect] at h
  split at h
  · simp [dkeys] at h
  · simp only [dkeys_dsetIfPresent] at h
    exact (mem_dkeys_dictFromKeysNull _ _).mp h

theorem aggBCollect_values_null (cfg : Cfg) (fam : String) :
    ∀ p ∈ aggBCollect cfg fam [], p.2 = Val.null := by
  intro p hp
  simp only [aggBCollect] at hp
  split at hp
  · cases hp
  · simp only [doverlay, List.foldl_nil] at hp
    exact values_null_dictFromKeysNull _ p hp

theorem dkeys_extractR1 (cfg : Cfg) (snf : SniffOut) (regA regB : Registry)
    (data : List Nat) :
    dkeys (extractR1 cfg snf regA regB data) = collectCols cfg := by
  simp only [extractR1]
  split
  · exact dkeys_aggACollect cfg snf _
  · rw [dkeys_dupdate_of_subset, extractAggA, dkeys_aggACollect]
    intro k hk
    rw [extractAggA, dkeys_aggACollect]
    exact aggBAllCols_subset_collectCols _ _
      (familyCols_subset_aggBAllCols _ _ _
        (dkeys_aggBCollect_subset _ _ _ _ hk))

theorem extractR2_eq_R1 (cfg : Cfg) (snf : SniffOut) (regA regB : Registry)
    (data : List Nat) :
    extractR2 cfg snf regA regB data = extractR1 cfg snf regA regB data :=
  foldl_dsetdefault_of_subset _ _ (by
    intro n hn
    rw [dkeys_extractR1]
    exact aggBAllCols_subset_collectCols _ _ hn)

theorem dkeys_extractR3 (cfg : Cfg) (snf : SniffOut) (regA regB : Registry)
    (lg : ℚ → ℚ) (data : List Nat) :
    dkeys (extractR3 cfg snf regA regB lg data) = collectCols cfg := by
  simp only [extractR3]
  split
  · rw [extractR2_eq_R1, dkeys_extractR1]
  · rw [dkeys_dupdate_of_subset, extractR2_eq_R1, dkeys_extractR1]
    intro k hk
    rw [extractR2_eq_R1, dkeys_extractR1]
    exact statCols_subset_collectCols _ _ (dkeys_aggCCollect_subset _ _ _ _ hk)

theorem mergedFeats_eq_R3 (cfg : Cfg) (snf : SniffOut) (regA regB : Registry)
    (lg : ℚ → ℚ) (data : List Nat) :
    mergedFeats cfg snf regA regB lg data =
      extractR3 cfg snf regA regB lg data :=
  foldl_dsetdefault_of_subset _ _ (by
    intro n hn
    rw [dkeys_extractR3]
    exact statCols_subset_collectCols _ _ hn)

theorem dkeys_mergedFeats (cfg : Cfg) (snf : SniffOut) (regA regB : Registry)
    (lg : ℚ → ℚ) (data : List Nat) :
    dkeys (mergedFeats cfg snf regA regB lg data) = collectCols cfg := by
  rw [mergedFeats_eq_R3, dkeys_extractR3]

theorem dkeys_finalRecord (cfg : Cfg) (snf : SniffOut) (regA regB : Registry)
    (lg : ℚ → ℚ) (data : List Nat) :
    dkeys (finalRecord cfg snf regA regB lg data) = collectCols cfg := by
  unfold finalRecord
  exact dkeys_map_pair _ _

theorem extract_feats_ok (cfg : Cfg) (snf : SniffOut) (regA regB : Registry)
    (lg : ℚ → ℚ) (data : List Nat) :
    extract_feats cfg snf regA regB lg data =
      Except.ok (finalRecord cfg snf regA regB lg data) := by
  unfold extract_feats
  have hk := dkeys_mergedFeats cfg snf regA regB lg data
  rw [if_neg]
  push_neg
  constructor
  · rw [List.filter_eq_nil_iff]
    intro c hc
    simp [hk, hc]
  · rw [List.filter_eq_nil_iff]
    intro c hc
    rw [hk] at hc
    simp [hc]

/-! ## Value facts about `AggregatorC.collect` -/

theorem dget_aggC_ic (lg : ℚ → ℚ) (cfg : Cfg) (data : List Nat)
    (h : "ic_index" ∈ statCols cfg) :
    dget (aggCCollect lg cfg data) "ic_index" =
      some (optFloat (index_of_coincidence (histogram data) data.length)) := by
  simp only [aggCCollect]
  rw [if_neg (List.ne_nil_of_mem h)]
  apply dget_dsetIfPresent_self_of_mem
  simp only [dkeys_dsetIfPresent]
  exact (mem_dkeys_dictFromKeysNull _ _).mpr h

theorem dget_aggC_entropy_global (lg : ℚ → ℚ) (cfg : Cfg) (data : List Nat)
    (h : "entropy_global" ∈ statCols cfg) :
    dget (aggCCollect lg cfg data) "entropy_global" =
      some (optFloat (entropy_from_counts lg (histogram data) data.length)) := by
  simp only [aggCCollect]
  rw [if_neg (List.ne_nil_of_mem h),
    dget_dsetIfPresent_ne _ _ _ _ (by decide),
    dget_dsetIfPresent_ne _ _ _ _ (by decide),
    dget_dsetIfPresent_ne _ _ _ _ (by decide),
    dget_dsetIfPresent_ne _ _ _ _ (by decide),
    dget_dsetIfPresent_ne _ _ _ _ (by decide)]
  apply dget_dsetIfPresent_self_of_mem
  exact (mem_dkeys_dictFromKeysNull _ _).mpr h

theorem dget_aggC_min_entropy (lg : ℚ → ℚ) (cfg : Cfg) (data : List Nat)
    (h : "min_entropy_global" ∈ statCols cfg) :
    dget (aggCCollect lg cfg data) "min_entropy_global" =
      some (optFloat (min_entropy lg (histogram data) data.length)) := by
  simp only [aggCCollect]
  rw [if_neg (List.ne_nil_of_mem h),
    dget_dsetIfPresent_ne _ _ _ _ (by decide),
    dget_dsetIfPresent_ne _ _ _ _ (by decide),
    dget_dsetIfPresent_ne _ _ _ _ (by decide),
    dget_dsetIfPresent_ne _ _ _ _ (by decide)]
  apply dget_dsetIfPresent_self_of_mem
  simp only [dkeys_dsetIfPresent]
  exact (mem_dkeys_dictFromKeysNull _ _).mpr h

theorem dget_aggC_entropy_head (lg : ℚ → ℚ) (cfg : Cfg) (data : List Nat)
    (h : "entropy_head" ∈ statCols cfg) :
    dget (aggCCollect lg cfg data) "entropy_head" =
      some (optFloat (entropy_from_bytes lg (data.take SEGMENT_SIZE))) := by
  simp only [aggCCollect]
  rw [if_neg (List.ne_nil_of_mem h),
    dget_dsetIfPresent_ne _ _ _ _ (by decide),
    dget_dsetIfPresent_ne _ _ _ _ (by decide),
    dget_dsetIfPresent_ne _ _ _ _ (by decide)]
  apply dget_dsetIfPresent_self_of_mem
  simp only [dkeys_dsetIfPresent]
  exact (mem_dkeys_dictFromKeysNull _ _).mpr h

theorem dget_aggC_entropy_tail (lg : ℚ → ℚ) (cfg : Cfg) (data : List Nat)
    (h : "entropy_tail" ∈ statCols cfg) :
    dget (aggCCollect lg cfg data) "entropy_tail" =
      some (optFloat (entropy_from_bytes lg
        (data.drop (data.length - SEGMENT_SIZE)))) := by
  simp only [aggCCollect]
  rw [if_neg (List.ne_nil_of_mem h),
    dget_dsetIfPresent_ne _ _ _ _ (by decide),
    dget_dsetIfPresent_ne _ _ _ _ (by decide)]
  apply dget_dsetIfPresent_self_of_mem
  simp only [dkeys_dsetIfPresent]
  exact (mem_dkeys_dictFromKeysNull _ _).mpr h

theorem dget_aggC_chi2 (lg : ℚ → ℚ) (cfg : Cfg) (data : List Nat)
    (h : "byte_chi2" ∈ statCols cfg) :
    dget (aggCCollect lg cfg data) "byte_chi2" =
      some (optFloat (chi_square (histogram data) data.length)) := by
  simp only [aggCCollect]
  rw [if_neg (List.ne_nil_of_mem h),
    dget_dsetIfPresent_ne _ _ _ _ (by decide)]
  apply dget_dsetIfPresent_self_of_mem
  simp only [dkeys_dsetIfPresent]
  exact (mem_dkeys_dictFromKeysNull _ _).mpr h

theorem mem_le_foldr_max (l : List Nat) (a : Nat) (h : a ∈ l) :
    a ≤ l.foldr max 0 := by
  induction l with
  | nil => cases h
  | cons hd tl ih =>
      rcases List.mem_cons.mp h with rfl | hmem
      · exact le_max_left _ _
      · exact le_trans (ih hmem) (le_max_right _ _)

theorem entropy_from_counts_isSome (lg : ℚ → ℚ) (counts : List Nat)
    (total : Nat) (h : total ≠ 0) :
    ∃ q, entropy_from_counts lg counts total = some q := by
  unfold entropy_from_counts
  rw [if_neg h]
  exact ⟨_, rfl⟩

theorem entropy_from_bytes_isSome (lg : ℚ → ℚ) (data : List Nat)
    (h : data.length ≠ 0) :
    ∃ q, entropy_from_bytes lg data = some q := by
  unfold entropy_from_bytes
  rw [if_neg h]
  exact entropy_from_counts_isSome lg _ _ h

theorem min_entropy_isSome (lg : ℚ → ℚ) (counts : List Nat) (total : Nat)
    (h : total ≠ 0) (hm : counts.foldr max 0 ≠ 0) :
    ∃ q, min_entropy lg counts total = some q := by
  unfold min_entropy
  rw [if_neg h]
  simp only [if_neg hm]
  exact ⟨_, rfl⟩

theorem chi_square_isSome (counts : List Nat) (total : Nat) (h : total ≠ 0) :
    ∃ q, chi_square counts total = some q := by
  unfold chi_square
  rw [if_neg h]
  have hexp : ((total : ℚ) / 256) ≠ 0 :=
    div_ne_zero (Nat.cast_ne_zero.mpr h) (by norm_num)
  simp only [if_neg hexp]
  exact ⟨_, rfl⟩

theorem histogram_max_pos (b : Nat) (hb : b < 256) :
    (histogram [b]).foldr max 0 ≠ 0 := by
  have h1 : (1 : Nat) ∈ histogram [b] := by
    unfold histogram
    rw [List.mem_map]
    exact ⟨b, List.mem_range.mpr hb, by simp⟩
  have := mem_le_foldr_max _ _ h1
  omega

/-- A schema whose `statistic` section declares the six derived metrics
(used to instantiate claims about `AggregatorC`). -/
def statCfg : Cfg :=
  [("statistic",
    [Item.mk "entropy_global" "float", Item.mk "min_entropy_global" "float",
     Item.mk "entropy_head" "float", Item.mk "entropy_tail" "float",
     Item.mk "byte_chi2" "float", Item.mk "ic_index" "float"])]

/-- C10: `index_of_coincidence` returns null (None) exactly when the
total byte count is at most 1 — in particular for a 1-byte input, not
only for the empty one — so the `ic_index` feature collected by
`AggregatorC.collect` is null for every file of size 0 or 1, while the
other five derived metrics are non-null for a 1-byte file. -/
theorem C10_ic_index_null_iff_total_le_one :
    (∀ (counts : List Nat) (total : Nat),
      index_of_coincidence counts total = none ↔ total ≤ 1) ∧
    (∀ (lg : ℚ → ℚ) (cfg : Cfg) (data : List Nat),
      "ic_index" ∈ statCols cfg → data.length ≤ 1 →
      dget (aggCCollect lg cfg data) "ic_index" = some Val.null) ∧
    (∀ (lg : ℚ → ℚ) (cfg : Cfg) (b : Nat), b < 256 →
      ("entropy_global" ∈ statCols cfg →
        ∃ q, dget (aggCCollect lg cfg [b]) "entropy_global" =
          some (Val.float q)) ∧
      ("min_entropy_global" ∈ statCols cfg →
        ∃ q, dget (aggCCollect lg cfg [b]) "min_entropy_global" =
          some (Val.float q)) ∧
      ("entropy_head" ∈ statCols cfg →
        ∃ q, dget (aggCCollect lg cfg [b]) "entropy_head" =
          some (Val.float q)) ∧
      ("entropy_tail" ∈ statCols cfg →
        ∃ q, dget (aggCCollect lg cfg [b]) "entropy_tail" =
          some (Val.float q)) ∧
      ("byte_chi2" ∈ statCols cfg →
        ∃ q, dget (aggCCollect lg cfg [b]) "byte_chi2" =
          some (Val.float q))) := by
  refine ⟨?_, ?_, ?_⟩
  · intro counts total
    constructor
    · intro heq
      by_contra hgt
      push_neg at hgt
      have h2 : total * (total - 1) ≠ 0 := Nat.mul_ne_zero (by omega) (by omega)
      unfold index_of_coincidence at heq
      rw [if_neg (by omega : ¬ total ≤ 1)] at heq
      simp only [if_neg h2] at heq
      exact Option.noConfusion heq
    · intro hle
      unfold index_of_coincidence
      rw [if_pos hle]
  · intro lg cfg data hm hlen
    rw [dget_aggC_ic lg cfg data hm,
      show index_of_coincidence (histogram data) data.length = none from by
        unfold index_of_coincidence; rw [if_pos hlen]]
    rfl
  · intro lg cfg b hb
    refine ⟨?_, ?_, ?_, ?_, ?_⟩
    · intro hm
      rw [dget_aggC_entropy_global lg cfg [b] hm]
      obtain ⟨q, hq⟩ :=
        entropy_from_counts_isSome lg (histogram [b]) ([b] : List Nat).length
          (by simp)
      rw [hq]
      exact ⟨q, rfl⟩
    · intro hm
      rw [dget_aggC_min_entropy lg cfg [b] hm]
      obtain ⟨q, hq⟩ :=
        min_entropy_isSome lg (histogram [b]) ([b] : List Nat).length
          (by simp) (histogram_max_pos b hb)
      rw [hq]
      exact ⟨q, rfl⟩
    · intro hm
      rw [dget_aggC_entropy_head lg cfg [b] hm]
      obtain ⟨q, hq⟩ :=
        entropy_from_bytes_isSome lg (([b] : List Nat).take SEGMENT_SIZE)
          (by simp [SEGMENT_SIZE])
      rw [hq]
      exact ⟨q, rfl⟩
    · intro hm
      rw [dget_aggC_entropy_tail lg cfg [b] hm]
      obtain ⟨q, hq⟩ :=
        entropy_from_bytes_isSome lg
          (([b] : List Nat).drop (([b] : List Nat).length - SEGMENT_SIZE))
          (by simp [SEGMENT_SIZE])
      rw [hq]
      exact ⟨q, rfl⟩
    · intro hm
      rw [dget_aggC_chi2 lg cfg [b] hm]
      obtain ⟨q, hq⟩ :=
        chi_square_isSome (histogram [b]) ([b] : List Nat).length (by simp)
      rw [hq]
      exact ⟨q, rfl⟩

/-- Witness for C10 at concrete inputs: the empty file and the 1-byte
file `[0]` under the six-column statistic schema. -/
theorem C10_witness :
    dget (aggCCollect (fun _ => 0) statCfg ([] : List Nat)) "ic_index" =
      some Val.null ∧
    dget (aggCCollect (fun _ => 0) statCfg [0]) "ic_index" = some Val.null ∧
    (∃ q, dget (aggCCollect (fun _ => 0) statCfg [0]) "entropy_global" =
      some (Val.float q)) ∧
    (∃ q, dget (aggCCollect (fun _ => 0) statCfg [0]) "min_entropy_global" =
      some (Val.float q)) ∧
    (∃ q, dget (aggCCollect (fun _ => 0) statCfg [0]) "entropy_head" =
      some (Val.float q)) ∧
    (∃ q, dget (aggCCollect (fun _ => 0) statCfg [0]) "entropy_tail" =
      some (Val.float q)) ∧
    (∃ q, dget (aggCCollect (fun _ => 0) statCfg [0]) "byte_chi2" =
      some (Val.float q)) := by
  have h := C10_ic_index_null_iff_total_le_one
  have h3 := h.2.2 (fun _ => 0) statCfg 0 (by decide)
  exact ⟨h.2.1 (fun _ => 0) statCfg [] (by decide) (by decide),
    h.2.1 (fun _ => 0) statCfg [0] (by decide) (by decide),
    h3.1 (by decide), h3.2.1 (by decide), h3.2.2.1 (by decide),
    h3.2.2.2.1 (by decide), h3.2.2.2.2 (by decide)⟩

/-- C2: for every input file and every schema configuration, the mapping
returned by `extract_feats` has key set exactly the schema's declared
columns — every declared column present, no undeclared key — and the
schema-reconciliation step never rejects, for every sniffer output and
every registered parser behaviour. -/
theorem C2_final_record_keys_equal_schema (cfg : Cfg) (snf : SniffOut)
    (regA regB : Registry) (lg : ℚ → ℚ) (data : List Nat) :
    extract_feats cfg snf regA regB lg data =
      Except.ok (finalRecord cfg snf regA regB lg data) ∧
    dkeys (finalRecord cfg snf regA regB lg data) = collectCols cfg :=
  ⟨extract_feats_ok cfg snf regA regB lg data,
    dkeys_finalRecord cfg snf regA regB lg data⟩

/-- C9 (implicit): for every sniffer output and every structural-parser
record whatsoever — arbitrary keys and values — `AggregatorA.collect`
returns a mapping whose key set is exactly the declared schema columns
(undeclared parser keys are silently discarded), and consequently the
schema-mismatch `RuntimeError` branch of `extract_feats` is unreachable
for every input and configuration: extraction always returns `ok`. -/
theorem C9_aggA_keys_exact_schema_error_unreachable (cfg : Cfg)
    (snf : SniffOut) (pf : Record) :
    dkeys (aggACollect cfg snf pf) = collectCols cfg ∧
    ∀ (regA regB : Registry) (lg : ℚ → ℚ) (data : List Nat),
      ∃ r, extract_feats cfg snf regA regB lg data = Except.ok r :=
  ⟨dkeys_aggACollect cfg snf pf,
    fun regA regB lg data => ⟨_, extract_feats_ok cfg snf regA regB lg data⟩⟩

theorem dget_gzipRec_pk (h m nm : Bool) :
    dget (gzipRec h m nm) "parser_ok" = some (Val.bool h) := rfl

theorem dget_gzipRec_sc (h m nm : Bool) :
    dget (gzipRec h m nm) "structure_consistent" = some (Val.bool h) := rfl

/-- C8: `parse_gzip` on the exact 10-byte input
`1F 8B 08 00 00 00 00 00 00 03` reports `gzip_header_ok = true`,
`gzip_mtime_present = false`, `gzip_name_present = false`,
`parser_ok = true`, `structure_consistent = true`; and on every input
accepted past the 10-byte header, `parser_ok` and
`structure_consistent` both equal the base-header validity
(`ID1 = 0x1F`, `ID2 = 0x8B`, `CM = 8`). -/
theorem C8_gzip_minimal_header_and_ok_equals_header_ok :
    parse_gzip [31, 139, 8, 0, 0, 0, 0, 0, 0, 3] =
      [("gzip_header_ok", Val.bool true),
       ("gzip_mtime_present", Val.bool false),
       ("gzip_name_present", Val.bool false),
       ("parser_ok", Val.bool true),
       ("structure_consistent", Val.bool true)] ∧
    ∀ (file : List Nat), 10 ≤ file.length →
      dget (parse_gzip file) "parser_ok" =
        some (Val.bool (gzipHeaderOk (file.take 65536))) ∧
      dget (parse_gzip file) "structure_consistent" =
        some (Val.bool (gzipHeaderOk (file.take 65536))) := by
  constructor
  · decide
  · intro file hlen
    have h10 : ¬ ((file.take 65536).length < 10) := by
      rw [List.length_take]
      omega
    unfold parse_gzip
    rw [if_neg h10]
    dsimp only
    refine ⟨?_, ?_⟩ <;>
      (repeat' split) <;>
      first
        | exact dget_gzipRec_pk _ _ _
        | exact dget_gzipRec_sc _ _ _

/-- Witness for C8's universally quantified part at a concrete 12-byte
GZIP-like input whose header bytes are wrong (header validity false). -/
theorem C8_witness :
    10 ≤ ([31, 139, 8, 8, 0, 0, 0, 0, 0, 3, 65, 0] : List Nat).length ∧
    dget (parse_gzip [31, 139, 8, 8, 0, 0, 0, 0, 0, 3, 65, 0]) "parser_ok" =
      some (Val.bool (gzipHeaderOk
        (([31, 139, 8, 8, 0, 0, 0, 0, 0, 3, 65, 0] : List Nat).take 65536))) :=
  ⟨by decide,
    (C8_gzip_minimal_header_and_ok_equals_header_ok.2
      [31, 139, 8, 8, 0, 0, 0, 0, 0, 3, 65, 0] (by decide)).1⟩

/-! ## Box-iteration facts (MP4) -/

theorem validateBoxGo_iterBoxesGo (file : List Nat) (limit : Nat) :
    ∀ (fuel pos steps : Nat), steps + fuel ≤ mp4MaxSteps →
      validateBoxGo (iterBoxesGo file limit fuel pos) pos steps = true := by
  intro fuel
  induction fuel with
  | zero => intro pos steps _; rfl
  | succ f ih =>
      intro pos steps h
      rw [iterBoxesGo]
      dsimp only
      repeat' split
      all_goals first
        | rfl
        | (rw [validateBoxGo]
           dsimp only
           rw [if_neg (fun hc => hc rfl), if_neg (by omega)]
           exact ih _ _ (by omega))

theorem iterBoxesGo_bounds (file : List Nat) (limit : Nat) :
    ∀ (fuel pos : Nat), ∀ b ∈ iterBoxesGo file limit fuel pos,
      pos ≤ b.start ∧ b.hdr ≤ b.size ∧ b.start + b.size ≤ limit := by
  intro fuel
  induction fuel with
  | zero => intro pos b hb; cases hb
  | succ f ih =>
      intro pos b hb
      rw [iterBoxesGo] at hb
      dsimp only at hb
      repeat' split at hb
      all_goals cases hb
      all_goals first
        | (dsimp only
           refine ⟨le_refl _, ?_, ?_⟩ <;> omega)
        | (rename_i hmem
           obtain ⟨ha, hb2, hc⟩ := ih _ _ hmem
           exact ⟨by omega, hb2, hc⟩)

/-- C3 counterexample: the 8-byte input `00 00 00 04 74 65 73 74`
declares a top-level box of size 4, smaller than its own 8-byte header.
Iteration terminates at that box without yielding it, as the claim says
— but `validate_box_range` reports the range as VALID (`true`, so
`mp4_box_tree_ok = true`), contradicting the claim that such a box
"causes the box-range validation to report the range as invalid". -/
theorem C3_counterexample_undersized_box_validates_true :
    u32be [0, 0, 0, 4, 116, 101, 115, 116] 0 = 4 ∧ (4 : Nat) < 8 ∧
    iter_boxes [0, 0, 0, 4, 116, 101, 115, 116] 0 8 = [] ∧
    validate_box_range [0, 0, 0, 4, 116, 101, 115, 116] 0 8 = true ∧
    dget (parse_mp4 [0, 0, 0, 4, 116, 101, 115, 116]) "mp4_box_tree_ok" =
      some (Val.bool true) := by
  decide

/-- C3 (amended): a box whose declared size is below its header size or
whose end exceeds the container end terminates `iter_boxes` at that box
— every yielded box lies inside `[start, limit)` with `hdr ≤ size`, and
the iterator (being a total function of bounded fuel) never reads past
the clamped file window — but the box-range validation does NOT report
the range as invalid: `validate_box_range` returns `true` on every
input whatsoever, because its only failure conditions (a yielded box
not starting at the cursor, or more than `max_steps` boxes) can never
fire on the contiguous, fuel-bounded box list `iter_boxes` produces. -/
theorem C3_amended_iteration_stops_but_validation_accepts
    (file : List Nat) (start limit : Nat) :
    validate_box_range file start limit = true ∧
    ((iter_boxes file start limit).all
      (fun b => decide (start ≤ b.start) && decide (b.hdr ≤ b.size) &&
        decide (b.start + b.size ≤ limit))) = true := by
  constructor
  · exact validateBoxGo_iterBoxesGo file limit mp4MaxSteps start 0
      (by omega)
  · rw [List.all_eq_true]
    intro b hb
    obtain ⟨h1, h2, h3⟩ := iterBoxesGo_bounds file limit mp4MaxSteps start b hb
    simp [h1, h2, h3]

/-! ## OLE2 chain-walk facts -/

theorem difatGo_visited_ok (data : List Nat) (ss : Nat) :
    ∀ (rem sect : Nat) (visited acc : List Nat),
      visited.Nodup → visited.length ≤ MAX_SECTORS_READ →
      (difatGo data ss rem sect visited acc).visited.Nodup ∧
        (difatGo data ss rem sect visited acc).visited.length ≤
          MAX_SECTORS_READ := by
  intro rem
  induction rem with
  | zero => intro sect visited acc h1 h2; exact ⟨h1, h2⟩
  | succ r ih =>
      intro sect visited acc h1 h2
      rw [difatGo]
      by_cases c1 : sect = FREESECT ∨ sect = ENDOFCHAIN
      · rw [if_pos c1]; exact ⟨h1, h2⟩
      · rw [if_neg c1]
        by_cases c2 : ¬ (visited.length < MAX_SECTORS_READ)
        · rw [if_pos c2]; exact ⟨h1, h2⟩
        · rw [if_neg c2]
          by_cases c3 : sect ∈ visited
          · rw [if_pos c3]; exact ⟨h1, h2⟩
          · rw [if_neg c3]
            dsimp only
            have h1x : (sect :: visited).Nodup := List.nodup_cons.mpr ⟨c3, h1⟩
            have h2x : (sect :: visited).length ≤ MAX_SECTORS_READ := by
              rw [List.length_cons]
              omega
            by_cases c4 : (read_sector data ss sect).length ≠ ss
            · rw [if_pos c4]; exact ⟨h1x, h2x⟩
            · rw [if_neg c4]
              by_cases c5 : ss / 4 = 0
              · rw [if_pos c5]; exact ⟨h1x, h2x⟩
              · rw [if_neg c5]
                exact ih _ _ _ h1x h2x

theorem followGo_seen_ok (data : List Nat) (ss : Nat) (fat : List Nat) :
    ∀ (fuel cur : Nat) (seen out : List Nat),
      seen.Nodup → seen.length + fuel ≤ MAX_SECTORS_READ →
      (followGo data ss fat fuel cur seen out).2.Nodup ∧
        (followGo data ss fat fuel cur seen out).2.length ≤
          MAX_SECTORS_READ := by
  intro fuel
  induction fuel with
  | zero =>
      intro cur seen out h1 h2
      refine ⟨h1, ?_⟩
      show seen.length ≤ MAX_SECTORS_READ
      omega
  | succ f ih =>
      intro cur seen out h1 h2
      rw [followGo]
      by_cases c1 : cur = FREESECT ∨ cur = ENDOFCHAIN
      · rw [if_pos c1]
        refine ⟨h1, ?_⟩
        show seen.length ≤ MAX_SECTORS_READ
        omega
      · rw [if_neg c1]
        by_cases c2 : cur ∈ seen ∨ fat.length ≤ cur
        · rw [if_pos c2]
          refine ⟨h1, ?_⟩
          show seen.length ≤ MAX_SECTORS_READ
          omega
        · rw [if_neg c2]
          push_neg at c2
          dsimp only
          have h1x : (cur :: seen).Nodup := List.nodup_cons.mpr ⟨c2.1, h1⟩
          by_cases c3 : (read_sector data ss cur).length ≠ ss
          · rw [if_pos c3]
            refine ⟨h1x, ?_⟩
            rw [List.length_cons]
            omega
          · rw [if_neg c3]
            refine ih _ _ _ h1x ?_
            rw [List.length_cons]
            omega

/-- C6: the OLE2 FAT/DIFAT construction and sector-chain following
terminate (both walks are total functions whose recursion mirrors the
source's loop variants: the DIFAT walk decrements `difat_remaining`,
the FAT-chain walk increments `hops` toward its cap) and are
cycle-safe: the DIFAT walk inside `build_fat` and the chain walk of
`follow_chain` each read at most 8,192 sectors, never visiting the
same sector index twice — a next-pointer aimed back at an
already-visited sector stops the walk instead of looping. -/
theorem C6_ole2_chain_walks_bounded_and_cycle_free :
    (∀ (data : List Nat) (H : OleHeader),
      (difatWalk data H).visited.Nodup ∧
        (difatWalk data H).visited.length ≤ MAX_SECTORS_READ) ∧
    (∀ (data : List Nat) (sectorSize : Nat) (fat : List Nat) (start : Nat),
      (followChainTrace data sectorSize fat start).Nodup ∧
        (followChainTrace data sectorSize fat start).length ≤
          MAX_SECTORS_READ) := by
  constructor
  · intro data H
    exact difatGo_visited_ok data H.sector_size H.num_difat_sectors
      H.first_difat [] _ List.nodup_nil (Nat.zero_le _)
  · intro data sectorSize fat start
    unfold followChainTrace
    by_cases c : start = FREESECT ∨ start = ENDOFCHAIN
    · rw [if_pos c]
      exact ⟨List.nodup_nil, Nat.zero_le _⟩
    · rw [if_neg c]
      exact followGo_seen_ok data sectorSize fat MAX_SECTORS_READ start [] []
        List.nodup_nil (by simp)

/-! ## Short-input behaviour of the parsers (C1, C4) -/

/-- The byte window `find_eocd` actually scans: the last
`min(64 KiB + 22, fsize)` bytes of the file. -/
def zipTailWindow (file : List Nat) : List Nat :=
  readBytes file (file.length - min MAX_EOCD_SEARCH file.length)
    (min MAX_EOCD_SEARCH file.length)

theorem rfindEocd_eq_none (l : List Nat)
    (h : ((List.range l.length).all (fun i => !(eocdSigAt l i))) = true) :
    rfindEocd l = none := by
  unfold rfindEocd
  have hfil : (List.range l.length).filter (fun i => eocdSigAt l i) = [] := by
    rw [List.filter_eq_nil_iff]
    intro i hi
    have hx := List.all_eq_true.mp h i hi
    simp only [Bool.not_eq_true'] at hx
    simp [hx]
  rw [hfil]
  rfl

theorem find_eocd_none_of_no_sig (file : List Nat)
    (h : ((List.range (zipTailWindow file).length).all
      (fun i => !(eocdSigAt (zipTailWindow file) i))) = true) :
    find_eocd file file.length = none := by
  unfold find_eocd
  dsimp only
  unfold zipTailWindow at h
  rw [rfindEocd_eq_none _ h]

theorem parse_zip_none_of_no_eocd (file : List Nat)
    (h : ((List.range (zipTailWindow file).length).all
      (fun i => !(eocdSigAt (zipTailWindow file) i))) = true) :
    parse_zip file = none := by
  unfold parse_zip
  dsimp only
  rw [find_eocd_none_of_no_sig file h]

theorem parse_ole2_none_of_short (file : List Nat) (h : file.length < 512) :
    parse_ole2 file = none := by
  unfold parse_ole2
  have h2 : file.length < OLE_HEADER_SIZE := h
  rw [show ole2Header file = none from by
    unfold ole2Header
    rw [if_pos h2]]

/-- C1 counterexample: the claim says `parse_ole2` on an input shorter
than its 512-byte minimum header returns the OLE2 default record with
`parser_ok = false`; on the empty input it returns Python `None`
instead — a different value. -/
theorem C1_counterexample_ole2_short_returns_none :
    parse_ole2 [] = none ∧ (none : Option Record) ≠ some ole2DefReturn := by
  decide

/-- C1 (amended): for inputs shorter than the format's minimum header,
`parse_gzip` (< 10 bytes), `parse_mp4` (< 8 bytes) and `parse_png`
(< 20 bytes) do return their formats' default records with
`parser_ok = false`; but `parse_ole2` on inputs shorter than 512 bytes
and `parse_zip` on inputs with no EOCD signature in the scanned tail
window return Python `None` instead of the default record (the
extraction layer then substitutes `parser_ok = null`). -/
theorem C1_amended_short_input_behaviour (file : List Nat) :
    (file.length < 512 → parse_ole2 file = none) ∧
    (((List.range (zipTailWindow file).length).all
        (fun i => !(eocdSigAt (zipTailWindow file) i))) = true →
      parse_zip file = none) ∧
    (file.length < 10 → parse_gzip file = gzipDefReturn) ∧
    (file.length < 8 → parse_mp4 file = mp4DefReturn) ∧
    (file.length < 20 → parse_png file = pngDefReturn) := by
  refine ⟨parse_ole2_none_of_short file, parse_zip_none_of_no_eocd file,
    ?_, ?_, ?_⟩
  · intro h
    unfold parse_gzip
    rw [if_pos (by rw [List.length_take]; omega)]
  · intro h
    unfold parse_mp4
    rw [if_pos h]
  · intro h
    unfold parse_png
    dsimp only
    rw [if_pos (Or.inr h)]

/-- Witness for C1 (amended) at concrete short inputs. -/
theorem C1_witness :
    parse_ole2 [208] = none ∧ parse_zip [80, 75] = none ∧
    parse_gzip [31, 139] = gzipDefReturn ∧
    parse_mp4 [0, 0, 0] = mp4DefReturn ∧
    parse_png [137, 80] = pngDefReturn :=
  ⟨(C1_amended_short_input_behaviour [208]).1 (by decide),
   (C1_amended_short_input_behaviour [80, 75]).2.1 (by decide),
   (C1_amended_short_input_behaviour [31, 139]).2.2.1 (by decide),
   (C1_amended_short_input_behaviour [0, 0, 0]).2.2.2.1 (by decide),
   (C1_amended_short_input_behaviour [137, 80]).2.2.2.2 (by decide)⟩

/-- C4 counterexample: on an input with no EOCD signature anywhere, the
claim says `parse_zip` returns the ZIP default record
(`zip_central_dir_ok = false`, `zip_entry_count = 0`,
`parser_ok = false`, `structure_consistent = false`); it returns Python
`None` instead. -/
theorem C4_counterexample_no_eocd_returns_none :
    parse_zip [1, 2, 3] = none ∧ (none : Option Record) ≠ some zipDefReturn := by
  decide

/-- C4 (amended): for every input whose scanned tail window (the last
`64 KiB + 22` bytes) contains no EOCD signature, `find_eocd` reports
no EOCD and `parse_zip` returns Python `None` — it does not raise, but
it does not return the ZIP default record either; `extract_feats` then
substitutes `parser_ok = null`, `structure_consistent = null`. -/
theorem C4_amended_no_eocd_returns_python_none (file : List Nat)
    (h : ((List.range (zipTailWindow file).length).all
      (fun i => !(eocdSigAt (zipTailWindow file) i))) = true) :
    parse_zip file = none ∧ find_eocd file file.length = none :=
  ⟨parse_zip_none_of_no_eocd file h, find_eocd_none_of_no_sig file h⟩

/-- Witness for C4 (amended) at a concrete 5-byte input. -/
theorem C4_witness :
    parse_zip [0, 0, 0, 0, 0] = none ∧
    find_eocd [0, 0, 0, 0, 0] ([0, 0, 0, 0, 0] : List Nat).length = none :=
  C4_amended_no_eocd_returns_python_none [0, 0, 0, 0, 0] (by decide)

/-! ## Value facts along the pipeline (C5, C7) -/

theorem nodup_dkeys_dupdate (d d2 : Record) (h : (dkeys d).Nodup) :
    (dkeys (dupdate d d2)).Nodup := by
  induction d2 generalizing d with
  | nil => exact h
  | cons hd tl ih =>
      unfold dupdate at *
      simp only [List.foldl_cons]
      exact ih _ (nodup_dkeys_dset d hd.1 hd.2 h)

theorem nodup_dkeys_commonRec (snf : SniffOut) :
    (dkeys (commonRec snf)).Nodup := by
  show (["size_bytes", "log_size", "magic_ok", "format_family",
    "magic_family"] : List String).Nodup
  decide

theorem nodup_dkeys_aggAMerged (snf : SniffOut) (pf : Record) :
    (dkeys (aggAMerged snf pf)).Nodup := by
  unfold aggAMerged
  dsimp only
  exact nodup_dkeys_dupdate _ _ (nodup_dkeys_commonRec snf)

theorem not_mem_dkeys_aggAMerged (snf : SniffOut) (pf : Record) (k : String)
    (h1 : k ∉ commonKeysList) (h2 : k ∉ dkeys pf)
    (h3 : k ≠ "parser_ok") (h4 : k ≠ "structure_consistent") :
    k ∉ dkeys (aggAMerged snf pf) := by
  unfold aggAMerged
  dsimp only
  intro hmem
  rcases (mem_dkeys_dupdate _ _ _).mp hmem with hc | hp
  · exact h1 hc
  · rcases (mem_dkeys_dsetdefault _ _ _ _).mp hp with hp2 | he
    · rcases (mem_dkeys_dsetdefault _ _ _ _).mp hp2 with hp3 | he2
      · exact h2 hp3
      · exact h3 he2
    · exact h4 he

theorem dget_aggACollect_null (cfg : Cfg) (snf : SniffOut) (pf : Record)
    (c : String) (hc : c ∈ collectCols cfg)
    (hnm : c ∉ dkeys (aggAMerged snf pf)) :
    dget (aggACollect cfg snf pf) c = some Val.null := by
  unfold aggACollect
  dsimp only
  rw [dget_doverlay_not_mem _ _ _ hnm, dget_map_fn, if_pos hc]

theorem dget_aggACollect_of_merged (cfg : Cfg) (snf : SniffOut)
    (pf : Record) (c : String) (v : Val) (hc : c ∈ collectCols cfg)
    (hv : dget (aggAMerged snf pf) c = some v) :
    dget (aggACollect cfg snf pf) c = some v := by
  unfold aggACollect
  dsimp only
  apply dget_doverlay_of_mem _ _ _ _ (nodup_dkeys_aggAMerged snf pf) _ hv
  rw [dkeys_map_pair]
  exact hc

theorem dget_mergedFeats_eq_R1 (cfg : Cfg) (snf : SniffOut)
    (regA regB : Registry) (lg : ℚ → ℚ) (data : List Nat) (c : String)
    (hstat : c ∉ statCols cfg) :
    dget (mergedFeats cfg snf regA regB lg data) c =
      dget (extractR1 cfg snf regA regB data) c := by
  rw [mergedFeats_eq_R3]
  unfold extractR3
  dsimp only
  split
  · rw [extractR2_eq_R1]
  · rw [dget_dupdate_not_mem _ _ _
      (fun hm => hstat (dkeys_aggCCollect_subset _ _ _ _ hm)),
      extractR2_eq_R1]

theorem dget_extractR1_null (cfg : Cfg) (snf : SniffOut)
    (regA regB : Registry) (data : List Nat) (c : String)
    (hcond : encCond (extractAggA cfg snf regA data) = false)
    (hA : dget (extractAggA cfg snf regA data) c = some Val.null) :
    dget (extractR1 cfg snf regA regB data) c = some Val.null := by
  unfold extractR1
  dsimp only
  have hEnc : extractAggEnc cfg snf regA regB data =
      aggBCollect cfg (snf.format_family ++ "_enc") [] := by
    unfold extractAggEnc
    dsimp only
    rw [hcond]
    rfl
  rw [hEnc]
  split
  · exact hA
  · by_cases hm : c ∈ dkeys (aggBCollect cfg (snf.format_family ++ "_enc") [])
    · exact dget_dupdate_mem_null _ _ _ (aggBCollect_values_null _ _) hm
    · rw [dget_dupdate_not_mem _ _ _ hm]
      exact hA

theorem dget_finalRecord_col (cfg : Cfg) (snf : SniffOut)
    (regA regB : Registry) (lg : ℚ → ℚ) (data : List Nat) (c : String)
    (hc : c ∈ collectCols cfg) :
    dget (finalRecord cfg snf regA regB lg data) c =
      some (normalize_value
        ((dget (mergedFeats cfg snf regA regB lg data) c).getD Val.null)
        (typeOf cfg c)) := by
  unfold finalRecord
  dsimp only
  rw [dget_map_fn, if_pos hc]

/-- A minimal ZIP-only schema (structural columns only). -/
def zipCfg : Cfg :=
  [("zip",
    [Item.mk "parser_ok" "bool", Item.mk "structure_consistent" "bool",
     Item.mk "zip_entry_count" "int"])]

/-- A sniffer output classifying the file as ZIP. -/
def snfZip : SniffOut :=
  ⟨"zip", Val.bool true, Val.str "zip", Val.int 3, Val.float 0⟩

/-- A structural registry holding only the ZIP parser (as the discovered
`PARSERS_A` does for the `zip` family). -/
def regAzip : Registry :=
  fun f => if f = "zip" then some parse_zip else none

/-- The empty registry (`get_parser`/`get_parser_enc` finding nothing). -/
def regNone : Registry := fun _ => none

/-- C5 counterexample: on the 3-byte input `09 09 09` (not a ZIP),
`parse_zip` returns Python `None`; `extract_feats` recovers — but the
failure surfaces as `parser_ok = null`, NOT as `parser_ok = false` with
the format's default feature values, refuting the claim's description
of the substitute. -/
theorem C5_counterexample_none_return_gives_null_not_false :
    parse_zip [9, 9, 9] = none ∧
    dget (finalRecord zipCfg snfZip regAzip regNone (fun _ => 0) [9, 9, 9])
      "parser_ok" = some Val.null ∧
    dget (finalRecord zipCfg snfZip regAzip regNone (fun _ => 0) [9, 9, 9])
      "zip_entry_count" = some Val.null ∧
    (some Val.null ≠ some (Val.bool false)) ∧
    extract_feats zipCfg snfZip regAzip regNone (fun _ => 0) [9, 9, 9] =
      Except.ok (finalRecord zipCfg snfZip regAzip regNone (fun _ => 0)
        [9, 9, 9]) :=
  ⟨by decide, by decide, by decide, by decide,
    extract_feats_ok zipCfg snfZip regAzip regNone (fun _ => 0) [9, 9, 9]⟩

/-- C5 (amended): `extract_feats` never propagates a per-file parse
failure — it always returns `ok` (the only `error` is the schema
reconciliation, proven unreachable).  When a structural parser catches
its own internal failure it returns the format default with
`parser_ok = false` (see the parsers' `DEF_RETURN` branches); but when
the registered parser returns `None` instead of a record,
`extract_feats` substitutes `{"parser_ok": None,
"structure_consistent": None}`, so the failure surfaces as NULL (not
false) universal booleans in the final record. -/
theorem C5_amended_none_parser_surfaces_as_null (cfg : Cfg)
    (snf : SniffOut) (regA regB : Registry) (lg : ℚ → ℚ)
    (data : List Nat) (p : List Nat → Option Record)
    (hreg : regA snf.format_family = some p) (hp : p data = none)
    (hpk : "parser_ok" ∈ collectCols cfg)
    (hsc : "structure_consistent" ∈ collectCols cfg)
    (hpk2 : "parser_ok" ∉ statCols cfg)
    (hsc2 : "structure_consistent" ∉ statCols cfg) :
    extract_feats cfg snf regA regB lg data =
      Except.ok (finalRecord cfg snf regA regB lg data) ∧
    dget (finalRecord cfg snf regA regB lg data) "parser_ok" =
      some Val.null ∧
    dget (finalRecord cfg snf regA regB lg data) "structure_consistent" =
      some Val.null := by
  have hpf : parserFeatsOf regA snf.format_family data =
      [("parser_ok", Val.null), ("structure_consistent", Val.null)] := by
    unfold parserFeatsOf
    rw [hreg]
    dsimp only
    rw [hp]
  have hmerge : aggAMerged snf
      [("parser_ok", Val.null), ("structure_consistent", Val.null)] =
      dupdate (commonRec snf)
        [("parser_ok", Val.null), ("structure_consistent", Val.null)] := rfl
  have hApk : dget (extractAggA cfg snf regA data) "parser_ok" =
      some Val.null := by
    unfold extractAggA
    rw [hpf]
    apply dget_aggACollect_of_merged _ _ _ _ _ hpk
    rw [hmerge]
    exact dget_dupdate_mem_null _ _ _ (by decide) (by decide)
  have hAsc : dget (extractAggA cfg snf regA data) "structure_consistent" =
      some Val.null := by
    unfold extractAggA
    rw [hpf]
    apply dget_aggACollect_of_merged _ _ _ _ _ hsc
    rw [hmerge]
    exact dget_dupdate_mem_null _ _ _ (by decide) (by decide)
  have hcond : encCond (extractAggA cfg snf regA data) = false := by
    unfold encCond
    rw [hApk]
    rfl
  refine ⟨extract_feats_ok cfg snf regA regB lg data, ?_, ?_⟩
  · rw [dget_finalRecord_col _ _ _ _ _ _ _ hpk,
      dget_mergedFeats_eq_R1 _ _ _ _ _ _ _ hpk2,
      dget_extractR1_null _ _ _ _ _ _ hcond hApk]
    rfl
  · rw [dget_finalRecord_col _ _ _ _ _ _ _ hsc,
      dget_mergedFeats_eq_R1 _ _ _ _ _ _ _ hsc2,
      dget_extractR1_null _ _ _ _ _ _ hcond hAsc]
    rfl

/-- Witness for C5 (amended): the ZIP registry entry applied to a
non-ZIP input returns `None`, and extraction reports null universal
booleans. -/
theorem C5_witness :
    regAzip (snfZip.format_family) = some parse_zip ∧
    parse_zip [7, 7] = none ∧
    extract_feats zipCfg snfZip regAzip regNone (fun _ => 0) [7, 7] =
      Except.ok (finalRecord zipCfg snfZip regAzip regNone (fun _ => 0)
        [7, 7]) ∧
    dget (finalRecord zipCfg snfZip regAzip regNone (fun _ => 0) [7, 7])
      "parser_ok" = some Val.null :=
  ⟨rfl, by decide,
    (C5_amended_none_parser_surfaces_as_null zipCfg snfZip regAzip regNone
      (fun _ => 0) [7, 7] parse_zip rfl (by decide) (by decide)
      (by decide) (by decide) (by decide)).1,
    (C5_amended_none_parser_surfaces_as_null zipCfg snfZip regAzip regNone
      (fun _ => 0) [7, 7] parse_zip rfl (by decide) (by decide)
      (by decide) (by decide) (by decide)).2.1⟩

/-- C7: the encryption-marker parser for the sniffed family is invoked
exactly when the merged structural features carry
`parser_ok = True` (identity test `is True`) AND the `_enc` registry
has a parser for that family; and whenever the merged `parser_ok` is
not `True` (structural failure, `None` substitute, or no structural
parser), no encryption parser runs and every declared `_enc` column
that no other producer writes (not a sniffer common key, not a key of
the structural record, not a statistic column) is null in the final
record. -/
theorem C7_enc_parser_gated_on_parser_ok (cfg : Cfg) (snf : SniffOut)
    (regA regB : Registry) (lg : ℚ → ℚ) (data : List Nat) :
    (encParserRuns cfg snf regA regB data = true ↔
      (dget (extractAggA cfg snf regA data) "parser_ok" =
          some (Val.bool true) ∧
        (regB (snf.format_family ++ "_enc")).isSome = true)) ∧
    (dget (extractAggA cfg snf regA data) "parser_ok" ≠
        some (Val.bool true) →
      ∀ c ∈ aggBAllCols cfg, c ∉ commonKeysList →
        c ∉ dkeys (parserFeatsOf regA snf.format_family data) →
        c ≠ "parser_ok" → c ≠ "structure_consistent" → c ∉ statCols cfg →
        dget (finalRecord cfg snf regA regB lg data) c = some Val.null) := by
  constructor
  · unfold encParserRuns encCond extractAggA
    rw [Bool.and_eq_true, decide_eq_true_eq]
  · intro hne c hcB h1 h2 h3 h4 h5
    have hcC : c ∈ collectCols cfg := aggBAllCols_subset_collectCols _ _ hcB
    have hcond : encCond (extractAggA cfg snf regA data) = false := by
      unfold encCond
      exact decide_eq_false hne
    have hAc : dget (extractAggA cfg snf regA data) c = some Val.null := by
      unfold extractAggA
      exact dget_aggACollect_null _ _ _ _ hcC
        (not_mem_dkeys_aggAMerged _ _ _ h1 h2 h3 h4)
    rw [dget_finalRecord_col _ _ _ _ _ _ _ hcC,
      dget_mergedFeats_eq_R1 _ _ _ _ _ _ _ h5,
      dget_extractR1_null _ _ _ _ _ _ hcond hAc]
    rfl

/-- A PDF schema with a `pdf_enc` section, for instantiating C7. -/
def pdfCfg : Cfg :=
  [("pdf", [Item.mk "parser_ok" "bool", Item.mk "structure_consistent" "bool"]),
   ("pdf_enc", [Item.mk "pdf_enc_present" "bool"])]

/-- A sniffer output classifying the file as PDF. -/
def snfPdf : SniffOut :=
  ⟨"pdf", Val.bool true, Val.str "pdf", Val.int 0, Val.float 0⟩

/-- Witness for C7: no structural parser is registered (so `parser_ok`
is null, not `True`), and the declared `pdf_enc_present` column is null
in the final record. -/
theorem C7_witness :
    dget (extractAggA pdfCfg snfPdf regNone ([] : List Nat)) "parser_ok" ≠
      some (Val.bool true) ∧
    dget (finalRecord pdfCfg snfPdf regNone regNone (fun _ => 0) [])
      "pdf_enc_present" = some Val.null :=
  ⟨by decide,
    (C7_enc_parser_gated_on_parser_ok pdfCfg snfPdf regNone regNone
      (fun _ => 0) []).2 (by decide) "pdf_enc_present" (by decide)
      (by decide) (by decide) (by decide) (by decide) (by decide)⟩
